import Mathlib

/-!
Verification of the obs-relay playback scheduling and overlay sequencing core.

Text is modelled as `List Char` (Python `str`), Python floats as exact
decimal values (`PyFloat` / `PyNum` below), Python `int` as `Int`, and the
stateful managers as pure functions from state to state together with an
ordered trace of external effects (control-surface calls, persistence
writes, listener notifications).
-/

namespace ObsRelay

/-- ASCII whitespace characters removed by Python `str.strip()`. -/
def pyWS : List Char := [' ', '\t', '\n', '\r', '\x0b', '\x0c']

/-- Whether a character is Python whitespace. -/
def isWS (c : Char) : Bool := pyWS.contains c

/-- Drop characters matching `p` from the end of a list. -/
def dropEndWhile (p : Char → Bool) (l : List Char) : List Char :=
  (l.reverse.dropWhile p).reverse

/-- Python `str.strip()`: remove leading and trailing whitespace (the
two ends are independent, so the removal order is immaterial). -/
def pyStrip (l : List Char) : List Char :=
  (dropEndWhile isWS l).dropWhile isWS

/-- Python `line.rstrip("\n\r")`, applied to every line read by the parser. -/
def rstripNL (l : List Char) : List Char :=
  dropEndWhile (fun c => c == '\n' || c == '\r') l

/-- Split a character list at every occurrence of the separator, like
Python `str.split(sep)` for a one-character separator. -/
def splitOnChar (c : Char) : List Char → List (List Char)
  | [] => [[]]
  | x :: xs =>
    let r := splitOnChar c xs
    if x = c then [] :: r
    else
      match r with
      | [] => [[x]]
      | y :: ys => (x :: y) :: ys

/-- Python `str.split(sep, 1)` for a one-character separator: the part
before the first occurrence, and (when the separator occurs) the rest. -/
def splitFirst (c : Char) : List Char → List Char × Option (List Char)
  | [] => ([], none)
  | x :: xs =>
    if x = c then ([], some xs)
    else
      let r := splitFirst c xs
      (x :: r.1, r.2)

/-- Decimal digit character for `d < 10`. -/
def digCh (d : Nat) : Char := Char.ofNat (48 + d)

/-- Whether a character is a decimal digit. -/
def isDig (c : Char) : Bool := ("0123456789".data).contains c

/-- Numeric value of a digit character. -/
def digVal (c : Char) : Nat := c.toNat - 48

/-- Value of a string of decimal digits. -/
def digitsVal (l : List Char) : Nat := l.foldl (fun a c => a * 10 + digVal c) 0

/-- Decimal digits of `n`, most significant first, with `fuel` bounding the
recursion depth (any `fuel ≥ n` suffices). -/
def natDigitsAux : Nat → Nat → List Char
  | 0, _ => []
  | fuel + 1, n =>
    if n = 0 then []
    else natDigitsAux fuel (n / 10) ++ [digCh (n % 10)]

/-- Decimal representation of a natural number (Python `str(n)`). -/
def natDigits (n : Nat) : List Char :=
  if n = 0 then ['0'] else natDigitsAux n n

/-- Decimal representation of an integer (Python `str(d)` / `f"{d}"`). -/
def intStr (d : Int) : List Char :=
  if d < 0 then '-' :: natDigits d.natAbs else natDigits d.natAbs

/-- A finite Python float obtained from a decimal numeral, kept exact:
the value is `num / 10 ^ den10`.  Python float literals are decimal
numerals and `repr` round-trips them, so the decimal value is the
faithful abstraction of the stored double. -/
structure PyFloat where
  num : Int
  den10 : Nat
deriving DecidableEq

/-- The rational value of a finite Python float. -/
def PyFloat.val (x : PyFloat) : ℚ := (x.num : ℚ) / 10 ^ x.den10

/-- A Python float as accepted by `float(str)`: a finite decimal value,
an infinity (`inf` / `-inf`), or `nan`. -/
inductive PyNum where
  | fin (x : PyFloat)
  | pinf
  | ninf
  | nan
deriving DecidableEq

/-- The zero float `0.0`. -/
def pyZero : PyNum := .fin ⟨0, 0⟩

/-- Python truthiness of a float (`if item.start_time:`): everything but
zero is truthy (including `nan` and the infinities). -/
def pyTruthy : PyNum → Bool
  | .fin x => x.num != 0
  | _ => true

/-- Numeric equality of two parsed floats (value equality; `nan` is a
single model value here). -/
def pyNumEq : PyNum → PyNum → Prop
  | .fin a, .fin b => a.val = b.val
  | .pinf, .pinf => True
  | .ninf, .ninf => True
  | .nan, .nan => True
  | _, _ => False

instance : DecidableEq ℚ := inferInstance

instance (a b : PyNum) : Decidable (pyNumEq a b) := by
  cases a <;> cases b <;> simp only [pyNumEq] <;> infer_instance

/-- Consume an optional leading sign; returns (isNegative, rest). -/
def parseSignCh : List Char → Bool × List Char
  | [] => (false, [])
  | x :: r =>
    if x = '+' then (false, r)
    else if x = '-' then (true, r)
    else (false, x :: r)

/-- Leading run of decimal digits and the remainder. -/
def takeDigs (l : List Char) : List Char × List Char :=
  (l.takeWhile isDig, l.dropWhile isDig)

/-- Optional fraction part `.digits`; returns (fraction digits, rest). -/
def parseFracPart : List Char → List Char × List Char
  | [] => ([], [])
  | x :: r => if x = '.' then takeDigs r else ([], x :: r)

/-- Optional exponent part `e[±]digits`; `none` when an exponent marker is
present without digits (a parse failure). -/
def parseExpPart : List Char → Option (Int × List Char)
  | [] => some (0, [])
  | x :: r =>
    if x = 'e' ∨ x = 'E' then
      let p := parseSignCh r
      let q := takeDigs p.2
      if q.1 = [] then none
      else some ((if p.1 then -(digitsVal q.1 : Int) else (digitsVal q.1 : Int)), q.2)
    else some (0, x :: r)

/-- Build the finite float `±m · 10 ^ (e - f)` from mantissa digits value
`m`, fraction length `f` and exponent `e`. -/
def mkPyFloat (neg : Bool) (m : Nat) (f : Nat) (e : Int) : PyFloat :=
  let s : Int := if neg then -(m : Int) else (m : Int)
  if (f : Int) ≤ e then ⟨s * 10 ^ (e - f).toNat, 0⟩
  else ⟨s, ((f : Int) - e).toNat⟩

/-- Model of Python `float(str)` on the forms the repository can meet:
optional whitespace and sign, then either `inf`/`infinity`/`nan`
(case-insensitive) or a decimal numeral `digits[.digits][e[±]digits]`.
Returns `none` exactly when Python raises `ValueError`. -/
def pyParseNumber (s : List Char) : Option PyNum :=
  let t := pyStrip s
  let sg := parseSignCh t
  let low := sg.2.map Char.toLower
  if low = "inf".data ∨ low = "infinity".data then
    some (if sg.1 then .ninf else .pinf)
  else if low = "nan".data then some .nan
  else
    let ip := takeDigs sg.2
    let fp := parseFracPart ip.2
    if ip.1 = [] ∧ fp.1 = [] then none
    else
      match parseExpPart fp.2 with
      | none => none
      | some (e, rest) =>
        if rest = [] then
          some (.fin (mkPyFloat sg.1 (digitsVal (ip.1 ++ fp.1)) fp.1.length e))
        else none

/-- Python `int(x)` on a finite float: truncation toward zero. -/
def pyTruncToInt (x : PyFloat) : Int := Int.tdiv x.num (10 ^ x.den10)

/-- Python `f"{x}"` for a float: a decimal numeral denoting exactly the
same value (`repr` of a float round-trips its value exactly; this model
uses scientific notation `Ne-K`, and the literal words for the special
values). -/
def pyFloatStr : PyNum → List Char
  | .fin x => intStr x.num ++ 'e' :: '-' :: natDigits x.den10
  | .pinf => "inf".data
  | .ninf => "-inf".data
  | .nan => "nan".data

/-- The final path component, as `pathlib.PurePosixPath(p).name`: the last
component after splitting on `/`, ignoring empty and `.` components. -/
def pyName (p : List Char) : List Char :=
  (((splitOnChar '/' p).filter
      (fun s => !s.isEmpty && s != ['.'])).getLast?).getD []

/-- Index of the last `.` in a list, if any. -/
def lastDotIdx (l : List Char) : Option Nat :=
  match l.reverse.findIdx? (· == '.') with
  | none => none
  | some j => some (l.length - 1 - j)

/-- `pathlib.PurePosixPath(p).stem`: the name without its final suffix;
the suffix starts at the last dot provided that dot is neither the first
nor the last character of the name. -/
def pyStem (p : List Char) : List Char :=
  let n := pyName p
  match lastDotIdx n with
  | some i => if 0 < i ∧ i < n.length - 1 then n.take i else n
  | none => n

/-- One playable entry (`PlaylistItem` in `playlist/manager.py`).  The
Python `metadata` dict can only ever hold the four `overlay_*` keys (the
parser filters out `title`/`duration`/`start_time`/`stop_time`), so it is
modelled by the four optional `overlay_*` fields (a key is present in the
dict iff the field is `some`). -/
structure PlaylistItem where
  path : List Char
  title : List Char := []
  duration : Int := -1
  start_time : PyNum := pyZero
  stop_time : PyNum := pyZero
  overlay_skip : Option Bool := none
  overlay_hold : Option PyNum := none
  overlay_delay : Option PyNum := none
  overlay_text : Option (List Char) := none
deriving DecidableEq

/-- `PlaylistItem.is_url`: the path starts with one of the four known URL
scheme prefixes. -/
def PlaylistItem.is_url (it : PlaylistItem) : Bool :=
  ("http://".data).isPrefixOf it.path || ("https://".data).isPrefixOf it.path ||
  ("rtmp://".data).isPrefixOf it.path || ("rtsp://".data).isPrefixOf it.path

/-- The parser's `current_meta` dict: each possible key as an optional
field (`some` iff the key is present). -/
structure PMeta where
  title : Option (List Char) := none
  duration : Option Int := none
  start_time : Option PyNum := none
  stop_time : Option PyNum := none
  overlay_skip : Option Bool := none
  overlay_hold : Option PyNum := none
  overlay_delay : Option PyNum := none
  overlay_text : Option (List Char) := none
deriving DecidableEq

/-- Build a `PlaylistItem` from a track line and the pending metadata,
mirroring the `items.append(PlaylistItem(...))` call in `M3UParser.parse`:
the title defaults to `Path(line).stem` unless the line starts with
`"http"`, in which case it defaults to the line itself. -/
def mkItem (line : List Char) (m : PMeta) : PlaylistItem :=
  { path := line
    title := m.title.getD
      (if ("http".data).isPrefixOf line then line else pyStem line)
    duration := m.duration.getD (-1)
    start_time := m.start_time.getD pyZero
    stop_time := m.stop_time.getD pyZero
    overlay_skip := m.overlay_skip
    overlay_hold := m.overlay_hold
    overlay_delay := m.overlay_delay
    overlay_text := m.overlay_text }

/-- `int(float(dur_str))` under `except ValueError: duration = -1`:
an unparseable numeral and `nan` give `-1` (both raise `ValueError`),
while an infinity raises an uncaught `OverflowError`, aborting the parse
(modelled by `.error ()`). -/
def durOfNum : Option PyNum → Except Unit Int
  | none => .ok (-1)
  | some (.fin x) => .ok (pyTruncToInt x)
  | some .nan => .ok (-1)
  | some .pinf => .error ()
  | some .ninf => .error ()

/-- The loop body of `M3UParser.parse` over the list of (already
`rstrip("\n\r")`-ed) lines, carrying the pending `current_meta`.
`.error ()` models the uncaught `OverflowError` escaping the loop. -/
def parseLines : List (List Char) → PMeta → Except Unit (List PlaylistItem)
  | [], _ => .ok []
  | line :: rest, m =>
    let l := pyStrip line
    if l = [] ∨ l = "#EXTM3U".data then parseLines rest m
    else if ("#EXTINF:".data).isPrefixOf l then
      let pr := splitFirst ',' (l.drop 8)
      match durOfNum (pyParseNumber pr.1) with
      | .error e => .error e
      | .ok d =>
        parseLines rest
          { m with duration := some d, title := some (pyStrip (pr.2.getD [])) }
    else if ("#EXTVLCOPT:start-time=".data).isPrefixOf l then
      match pyParseNumber ((splitFirst '=' l).2.getD []) with
      | some q => parseLines rest { m with start_time := some q }
      | none => parseLines rest m
    else if ("#EXTVLCOPT:stop-time=".data).isPrefixOf l then
      match pyParseNumber ((splitFirst '=' l).2.getD []) with
      | some q => parseLines rest { m with stop_time := some q }
      | none => parseLines rest m
    else if ("#EXTOVERLAY:".data).isPrefixOf l then
      let r := l.drop 12
      match (splitFirst '=' r).2 with
      | none => parseLines rest m
      | some v0 =>
        let key := (pyStrip (splitFirst '=' r).1).map Char.toLower
        let val := pyStrip v0
        if key = "skip".data then
          let flag := decide (¬ (val = "0".data ∨ val = "false".data ∨
                                 val = "no".data ∨ val = []))
          parseLines rest { m with overlay_skip := some flag }
        else if key = "hold".data then
          match pyParseNumber val with
          | some q => parseLines rest { m with overlay_hold := some q }
          | none => parseLines rest m
        else if key = "delay".data then
          match pyParseNumber val with
          | some q => parseLines rest { m with overlay_delay := some q }
          | none => parseLines rest m
        else if key = "text".data then
          parseLines rest { m with overlay_text := some val }
        else parseLines rest m
    else if l.head? = some '#' then parseLines rest m
    else
      match parseLines rest {} with
      | .ok items => .ok (mkItem l m :: items)
      | .error e => .error e

/-- The lines handed to the parse loop for a file content: Python
`readlines()` followed by `rstrip("\n\r")` on each line (split at every
newline; a possible extra final empty line is blank and skipped). -/
def contentLines (content : List Char) : List (List Char) :=
  (splitOnChar '\n' content).map rstripNL

/-- `M3UParser.parse`, reduced to its item list (playlist name and source
path play no role in any claim). -/
def parseContent (content : List Char) : Except Unit (List PlaylistItem) :=
  parseLines (contentLines content) {}

/-- The characters `M3UParser.write` emits for one item: the `#EXTINF`
line, the trim lines when the trim values are truthy, the path line, and
a blank separator line. -/
def itemBlock (it : PlaylistItem) : List Char :=
  ("#EXTINF:".data) ++ intStr it.duration ++ ',' :: it.title ++ '\n' ::
  ((if pyTruthy it.start_time then
      ("#EXTVLCOPT:start-time=".data) ++ pyFloatStr it.start_time ++ ['\n']
    else []) ++
   (if pyTruthy it.stop_time then
      ("#EXTVLCOPT:stop-time=".data) ++ pyFloatStr it.stop_time ++ ['\n']
    else []) ++
   it.path ++ ['\n', '\n'])

/-- `M3UParser.write`: the full file content written for an item list. -/
def writeContent (items : List PlaylistItem) : List Char :=
  ("#EXTM3U".data) ++ '\n' :: '\n' :: (items.map itemBlock).flatten

/-- A named playlist (`Playlist` dataclass): ordered items plus the
`loop` and `shuffle` flags. -/
structure Playlist where
  name : String
  items : List PlaylistItem := []
  loop : Bool := true
  shuffle : Bool := false
deriving DecidableEq

/-- The state record `PlaylistManager.save_state` persists: exactly the
four fields `active_playlist`, `position`, `source_name`,
`auto_advance`. -/
structure StateRecord where
  active_playlist : Option String
  position : Int
  source_name : String
  auto_advance : Bool
deriving DecidableEq

/-- External effects a scheduler operation performs, in order: a call to
the media-update hook (`self._obs_update`), a persistence write
(`save_state`), or the firing of the registered track-change listeners. -/
inductive SEffect where
  | obsUpdate (source : String) (path : List Char)
  | save (rec : StateRecord)
  | notify (item : PlaylistItem) (playlist : String) (position : Int)
deriving DecidableEq

/-- The mutable state of `PlaylistManager`. -/
structure SchedState where
  playlists : List (String × Playlist)
  active : Option String := none
  position : Int := 0
  shuffled_order : List Nat := []
  source_name : String := "MediaSource"
  auto_advance : Bool := true

/-- The record `save_state` writes for a given state. -/
def stateRecord (st : SchedState) : StateRecord :=
  ⟨st.active, st.position, st.source_name, st.auto_advance⟩

/-- `PlaylistManager.active_playlist`. -/
def activePl (st : SchedState) : Option Playlist :=
  match st.active with
  | none => none
  | some n => st.playlists.lookup n

/-- `PlaylistManager._resolve_index`: through the shuffled permutation
when shuffling (and the permutation is non-empty), else the cursor modulo
the item count. -/
def resolveIndex (st : SchedState) : Nat :=
  match activePl st with
  | none => 0
  | some pl =>
    if pl.shuffle ∧ st.shuffled_order ≠ [] then
      st.shuffled_order.getD
        ((st.position % (st.shuffled_order.length : Int)).toNat) 0
    else if pl.items ≠ [] then (st.position % (pl.items.length : Int)).toNat
    else 0

/-- `PlaylistManager.current_item`. -/
def currentItem (st : SchedState) : Option PlaylistItem :=
  match activePl st with
  | none => none
  | some pl =>
    if pl.items = [] then none else pl.items.get? (resolveIndex st)

/-- The shared tail of activate/next/previous/seek: resolve the current
item, call the media-update hook when an item resolved, persist state,
and fire the track-change listeners when an item resolved. -/
def opEffects (st2 : SchedState) (src : String) :
    Option PlaylistItem × List SEffect :=
  let item := currentItem st2
  (item,
    (match item with
     | some it => [SEffect.obsUpdate src it.path]
     | none => []) ++
    SEffect.save (stateRecord st2) ::
    (match item with
     | some it => [SEffect.notify it (st2.active.getD "") st2.position]
     | none => []))

/-- `PlaylistManager.activate(name, position, source_name)`.  `rng`
models `random.shuffle`: it permutes the list it is given (theorems
assume `∀ l, (rng l).Perm l`). -/
def activate (rng : List Nat → List Nat) (st : SchedState) (nm : String)
    (position : Int) (src? : Option String) :
    SchedState × Option PlaylistItem × List SEffect :=
  match st.playlists.lookup nm with
  | none => (st, none, [])
  | some pl =>
    let src := src?.getD st.source_name
    let ord := if pl.shuffle then rng (List.range pl.items.length) else []
    let st2 :=
      { st with active := some nm, position := position, shuffled_order := ord }
    let pr := opEffects st2 src
    (st2, pr.1, pr.2)

/-- `PlaylistManager.next(source_name)`: advance the cursor; past the end,
wrap to 0 (reshuffling when shuffled) under `loop`, else clamp to the
last index and return `none` with only the persistence write. -/
def next (rng : List Nat → List Nat) (st : SchedState) (src? : Option String) :
    SchedState × Option PlaylistItem × List SEffect :=
  match activePl st with
  | none => (st, none, [])
  | some pl =>
    if pl.items = [] then (st, none, [])
    else
      let src := src?.getD st.source_name
      let p1 := st.position + 1
      if (pl.items.length : Int) ≤ p1 then
        if pl.loop then
          let ord := if pl.shuffle then rng st.shuffled_order else st.shuffled_order
          let st2 := { st with position := 0, shuffled_order := ord }
          let pr := opEffects st2 src
          (st2, pr.1, pr.2)
        else
          let st2 := { st with position := (pl.items.length : Int) - 1 }
          (st2, none, [SEffect.save (stateRecord st2)])
      else
        let st2 := { st with position := p1 }
        let pr := opEffects st2 src
        (st2, pr.1, pr.2)

/-- `PlaylistManager.previous(source_name)`: decrement, clamped at 0. -/
def previousOp (st : SchedState) (src? : Option String) :
    SchedState × Option PlaylistItem × List SEffect :=
  match activePl st with
  | none => (st, none, [])
  | some pl =>
    if pl.items = [] then (st, none, [])
    else
      let src := src?.getD st.source_name
      let st2 := { st with position := max 0 (st.position - 1) }
      let pr := opEffects st2 src
      (st2, pr.1, pr.2)

/-- `PlaylistManager.seek(position, source_name)`: clamp into
`[0, length-1]` (via Python `max(0, min(position, len - 1))`). -/
def seek (st : SchedState) (position : Int) (src? : Option String) :
    SchedState × Option PlaylistItem × List SEffect :=
  match activePl st with
  | none => (st, none, [])
  | some pl =>
    let src := src?.getD st.source_name
    let st2 :=
      { st with position := max 0 (min position ((pl.items.length : Int) - 1)) }
    let pr := opEffects st2 src
    (st2, pr.1, pr.2)

/-- `PlaylistItem.exists_on_disk`: remote URLs cannot be checked and
count as existing; local paths are checked against the file system,
modelled by the predicate `fs`. -/
def existsOnDisk (fs : List Char → Bool) (it : PlaylistItem) : Bool :=
  if it.is_url then true else fs it.path

/-- Values appearing in the report dict of `validate_playlist`. -/
inductive RVal where
  | b (v : Bool)
  | s (v : String)
  | n (v : Nat)
  | paths (v : List (List Char))
deriving DecidableEq

/-- `PlaylistManager.validate_playlist(name)`: the report dict, as an
ordered key/value list.  An unknown name yields the two-field failure
report; otherwise the full six-field report. -/
def validatePlaylist (fs : List Char → Bool) (st : SchedState) (nm : String) :
    List (String × RVal) :=
  match st.playlists.lookup nm with
  | none =>
    [("valid", .b false), ("error", .s ("Playlist '" ++ nm ++ "' not found"))]
  | some pl =>
    let missing := pl.items.filter (fun it => !existsOnDisk fs it)
    let okItems := pl.items.filter (fun it => existsOnDisk fs it)
    [("playlist", .s nm),
     ("valid", .b (decide (missing.length = 0))),
     ("total", .n pl.items.length),
     ("ok", .n okItems.length),
     ("missing_count", .n missing.length),
     ("missing", .paths (missing.map (fun it => it.path)))]

/-- Overlay configuration fields used by `OverlayManager.trigger` (the
text-composition and fade fields of `OverlayConfig` are not read by
`trigger` and are omitted). -/
structure OverlayConfig where
  enabled : Bool := true
  source_name : String := "TitleOverlay"
  scene_name : String := ""
  hold_sec : PyNum := .fin ⟨8, 0⟩
  delay_sec : PyNum := .fin ⟨1, 0⟩
  auto_trigger : Bool := true
deriving DecidableEq

/-- An asyncio task handle held in `self._timer_task`: its identity and
its `done()` flag. -/
structure OverlayTask where
  id : Nat
  done : Bool
deriving DecidableEq

/-- The mutable state of `OverlayManager`: the single task slot, the
status fields `trigger` touches, and a counter for fresh task ids. -/
structure OverlayState where
  timer_task : Option OverlayTask := none
  status_active : Bool := false
  status_text : List Char := []
  next_id : Nat := 0
deriving DecidableEq

/-- Effects of `OverlayManager.trigger`, in program order: cancelling the
outstanding task, the best-effort synchronous hide of the overlay source,
creating the new sequence task, and notifying external callbacks. -/
inductive OEffect where
  | cancel (id : Nat)
  | hideAttempt
  | createTask (id : Nat) (text : List Char) (hold : PyNum) (delay : PyNum)
  | callbackFired (text : List Char) (hold : PyNum) (delay : PyNum)
deriving DecidableEq

/-- The result dict `trigger` returns. -/
structure TriggerResult where
  status : String
  text : List Char
  hold_sec : PyNum
  delay_sec : PyNum
  source : String
deriving DecidableEq

/-- `OverlayManager.trigger(text, hold_sec, delay_sec)`: cancel a
still-running previous task and hide the source, then record status and
start the new sequence task, then notify callbacks and return. -/
def trigger (cfg : OverlayConfig) (st : OverlayState) (text : List Char)
    (hold? delay? : Option PyNum) :
    OverlayState × TriggerResult × List OEffect :=
  let hold := hold?.getD cfg.hold_sec
  let delay := delay?.getD cfg.delay_sec
  let cancelEffs :=
    match st.timer_task with
    | some t => if !t.done then [OEffect.cancel t.id, OEffect.hideAttempt] else []
    | none => []
  let newTask : OverlayTask := ⟨st.next_id, false⟩
  let st2 := { st with status_text := text, status_active := true,
                       timer_task := some newTask, next_id := st.next_id + 1 }
  (st2,
   ⟨"triggered", text, hold, delay, cfg.source_name⟩,
   cancelEffs ++
     [OEffect.createTask newTask.id text hold delay,
      OEffect.callbackFired text hold delay])

/-- A value in a scene action's parameter dict. -/
inductive PVal where
  | s (v : String)
  | q (v : PyNum)
  | b (v : Bool)
deriving DecidableEq

/-- `SceneAction`: a typed side-effect with a parameter dict. -/
structure SceneAction where
  type : String
  params : List (String × PVal) := []
deriving DecidableEq

/-- `ScenePreset`: scene name, ordered actions, optional linked playlist. -/
structure ScenePreset where
  name : String
  scene_name : String
  description : String := ""
  actions : List SceneAction := []
  playlist : Option String := none
  hotkey : Option String := none
deriving DecidableEq

/-- Python dict access `p[k]`: raises `KeyError` when absent. -/
def dGet (p : List (String × PVal)) (k : String) : Except String PVal :=
  match p.lookup k with
  | some v => .ok v
  | none => .error ("KeyError: " ++ k)

/-- The control-surface calls `_run_action` can issue. -/
inductive ObsCall where
  | setVolume (source : PVal) (db : PVal)
  | setMute (source : PVal) (muted : PVal)
  | playPauseMedia (source : PVal) (pause : Bool)
  | restartMedia (source : PVal)
deriving DecidableEq

/-- `ScenePresetManager._run_action`: dispatch on the action type;
unknown types yield the soft "unknown action type" result.  `obsBeh`
models the control surface (which may raise). -/
def runAction (obsBeh : ObsCall → Except String (List (String × PVal)))
    (a : SceneAction) : Except String (List (String × PVal)) :=
  if a.type = "set_volume" then do
    let sn ← dGet a.params "source_name"
    let db ← dGet a.params "volume_db"
    obsBeh (.setVolume sn db)
  else if a.type = "set_mute" then do
    let sn ← dGet a.params "source_name"
    let mu ← dGet a.params "muted"
    obsBeh (.setMute sn mu)
  else if a.type = "media_play" then do
    let sn ← dGet a.params "source_name"
    obsBeh (.playPauseMedia sn false)
  else if a.type = "media_pause" then do
    let sn ← dGet a.params "source_name"
    obsBeh (.playPauseMedia sn true)
  else if a.type = "media_restart" then do
    let sn ← dGet a.params "source_name"
    obsBeh (.restartMedia sn)
  else .ok [("status", .s ("unknown action type: " ++ a.type))]

/-- One entry of the results list `ScenePresetManager.activate` builds. -/
inductive PEntry where
  | switchSkipped
  | switchDone (r : List (String × PVal))
  | actionDone (ty : String) (r : List (String × PVal))
  | actionRaised (ty : String) (msg : String)
  | playlistDone (pl : String) (track : Option (List Char))
deriving DecidableEq

/-- The results entry recorded for one side-effect action: its result on
normal return, an error entry when it raises. -/
def entryOfAction (obsBeh : ObsCall → Except String (List (String × PVal)))
    (a : SceneAction) : PEntry :=
  match runAction obsBeh a with
  | .ok r => .actionDone a.type r
  | .error e => .actionRaised a.type e

/-- Whether a results list contains a linked-playlist activation entry. -/
def hasPlaylistEntry (l : List PEntry) : Bool :=
  l.any (fun e => match e with | .playlistDone _ _ => true | _ => false)

/-- `ScenePresetManager.activate(name)`: unknown names raise `ValueError`
(`.error`); otherwise switch scene (skipped when disconnected; an
exception from a connected scene switch propagates, it is not guarded),
run all actions collecting one entry each, and activate a linked playlist
if any — a raising playlist activation is caught and logged and
contributes no entry.  Returns the active preset name and the results
list. -/
def presetActivate (connected : Bool)
    (switchScene : String → Except String (List (String × PVal)))
    (obsBeh : ObsCall → Except String (List (String × PVal)))
    (plActivate : Option (String → Except String (Option PlaylistItem)))
    (presets : List (String × ScenePreset)) (nm : String) :
    Except String (String × List PEntry) :=
  match presets.lookup nm with
  | none => .error ("Preset '" ++ nm ++ "' not found.")
  | some preset =>
    let step1 : Except String PEntry :=
      if !connected then .ok .switchSkipped
      else
        match switchScene preset.scene_name with
        | .ok r => .ok (.switchDone r)
        | .error e => .error e
    match step1 with
    | .error e => .error e
    | .ok e1 =>
      let actEntries := preset.actions.map (entryOfAction obsBeh)
      let plEntries :=
        match preset.playlist, plActivate with
        | some pn, some f =>
          match f pn with
          | .ok item => [PEntry.playlistDone pn (item.map (fun it => it.title))]
          | .error _ => []
        | _, _ => []
      .ok (nm, e1 :: actEntries ++ plEntries)

/-- The persistence writes contained in an effect trace, in order. -/
def savedRecords (l : List SEffect) : List StateRecord :=
  l.filterMap (fun e => match e with | .save r => some r | _ => none)

/-- The media-update hook calls contained in an effect trace. -/
def hookCalls (l : List SEffect) : List (String × List Char) :=
  l.filterMap (fun e => match e with | .obsUpdate s p => some (s, p) | _ => none)

/-- The listener notifications contained in an effect trace. -/
def notifications (l : List SEffect) : List (PlaylistItem × String × Int) :=
  l.filterMap
    (fun e => match e with | .notify it n p => some (it, n, p) | _ => none)

/-- Scheduler-state invariant: whenever the active playlist is shuffled,
the held order is a permutation of the item-index range.  It holds for
every reachable state (established by `activate`, preserved by all
operations). -/
def SchedInv (st : SchedState) : Prop :=
  ∀ pl, activePl st = some pl → pl.shuffle = true →
    st.shuffled_order.Perm (List.range pl.items.length)

/-- The index-resolution rule exactly as the specification words it:
when shuffled, the permutation entry at cursor mod permutation length;
when not shuffled, cursor mod item count. -/
def specResolveIndex (st : SchedState) (pl : Playlist) : Nat :=
  if pl.shuffle then
    st.shuffled_order.getD
      ((st.position % (st.shuffled_order.length : Int)).toNat) 0
  else (st.position % (pl.items.length : Int)).toNat

/-- `k` successive calls of `next`, returning the final state and the
result of the last call. -/
def nextIter (rng : List Nat → List Nat) (src? : Option String) :
    Nat → SchedState → SchedState × Option PlaylistItem
  | 0, st => (st, none)
  | k + 1, st =>
    let pr := nextIter rng src? k st
    let r := next rng pr.1 src?
    (r.1, r.2.1)

/-- What one write/re-parse round trip does to an item: the title is
re-stripped, falsy trim values fall back to `0.0` (they are not written),
and overlay metadata is dropped (it is not re-serialized). -/
def reparsedItem (it : PlaylistItem) : PlaylistItem :=
  { path := it.path
    title := pyStrip it.title
    duration := it.duration
    start_time := if pyTruthy it.start_time then it.start_time else pyZero
    stop_time := if pyTruthy it.stop_time then it.stop_time else pyZero }

/-- Structure of every track path produced by the parser: stripped,
non-empty, not a comment line, and free of newlines. -/
def GoodPath (p : List Char) : Prop :=
  pyStrip p = p ∧ p ≠ [] ∧ p.head? ≠ some '#' ∧ '\n' ∉ p

/-- Structure of every item produced by the parser. -/
def GoodItem (it : PlaylistItem) : Prop :=
  GoodPath it.path ∧ '\n' ∉ it.title

/-- The lines of the block `M3UParser.write` emits for one item. -/
def blockLines (it : PlaylistItem) : List (List Char) :=
  (("#EXTINF:".data) ++ intStr it.duration ++ ',' :: it.title) ::
  ((if pyTruthy it.start_time then
      [("#EXTVLCOPT:start-time=".data) ++ pyFloatStr it.start_time]
    else []) ++
   (if pyTruthy it.stop_time then
      [("#EXTVLCOPT:stop-time=".data) ++ pyFloatStr it.stop_time]
    else []) ++
   [it.path, []])

/-- All lines of the file `M3UParser.write` emits. -/
def writeLines (items : List PlaylistItem) : List (List Char) :=
  ("#EXTM3U".data) :: [] :: (items.map blockLines).flatten

/-- Join lines into file content, a newline after every line. -/
def linesJoin (ls : List (List Char)) : List Char :=
  (ls.map (fun l => l ++ ['\n'])).flatten

/-- Concrete fixtures used by witnesses and counterexamples. -/
def idRng : List Nat → List Nat := fun l => l

def wItemA : PlaylistItem := { path := "/a.mp4".data, title := "A".data }

def wItemB : PlaylistItem := { path := "/b.mp4".data, title := "B".data }

def wPlaylist : Playlist :=
  { name := "test", items := [wItemA, wItemB], loop := true, shuffle := false }

def wNoLoop : Playlist :=
  { name := "nl", items := [wItemA, wItemB], loop := false, shuffle := false }

def wState : SchedState :=
  { playlists := [("test", wPlaylist)], active := some "test", position := 0,
    shuffled_order := [], source_name := "MediaSource", auto_advance := true }

def wStateNoLoop : SchedState :=
  { playlists := [("nl", wNoLoop)], active := some "nl", position := 1,
    shuffled_order := [], source_name := "MediaSource", auto_advance := true }

def wStateEmpty : SchedState :=
  { playlists := [], active := none, position := 0, shuffled_order := [],
    source_name := "MediaSource", auto_advance := true }

def wOverlayTask : OverlayTask := { id := 7, done := false }

def wOverlayState : OverlayState :=
  { timer_task := some wOverlayTask, status_active := true,
    status_text := "old".data, next_id := 8 }

def cPreset : ScenePreset :=
  { name := "p1", scene_name := "SceneA", playlist := some "intermission" }

def cPresetActs : ScenePreset :=
  { name := "p2", scene_name := "SceneB",
    actions := [⟨"set_mute", [("source_name", .s "Mic"), ("muted", .b true)]⟩,
                ⟨"bogus", []⟩] }

def cSwitch : String → Except String (List (String × PVal)) :=
  fun s => .ok [("scene", .s s), ("status", .s "ok")]

def cObs : ObsCall → Except String (List (String × PVal)) :=
  fun _ => .ok [("status", .s "ok")]

def cPlFail : String → Except String (Option PlaylistItem) :=
  fun _ => .error "playlist activation raised"

def c9Item : PlaylistItem :=
  { path := "rtmp://host/video.mp4".data, title := "video".data }

def c4Item : PlaylistItem := { path := "d/ a.mp4".data, title := " a".data }

def c4Item2 : PlaylistItem := { path := "d/ a.mp4".data, title := "a".data }

def wShufPl : Playlist :=
  { name := "sh", items := [wItemA, wItemB], loop := true, shuffle := true }

def wShufState : SchedState :=
  { playlists := [("sh", wShufPl)], active := some "sh", position := 5,
    shuffled_order := [1, 0], source_name := "MediaSource",
    auto_advance := true }

def w4Content : List Char :=
  ("#EXTM3U\n\n#EXTINF:42,  Spaced Title  \n#EXTVLCOPT:start-time=0.5\n/media/a.mp4\n\ntrack2.mp4\n").data

def w4Items : List PlaylistItem :=
  [{ path := "/media/a.mp4".data, title := "Spaced Title".data,
     duration := 42, start_time := .fin ⟨5, 1⟩ },
   { path := "track2.mp4".data, title := "track2".data }]

/-- C10: for every name not present in the scheduler's playlist mapping,
`validate_playlist(name)` returns (rather than raising — the model is a
total function) the failure-shaped report with `valid = false` and an
error message, and without the `total`/`ok`/`missing_count`/`missing`
fields of the normal per-playlist report. -/
theorem validate_unknown_name (fs : List Char → Bool) (st : SchedState)
    (nm : String) (h : st.playlists.lookup nm = none) :
    (validatePlaylist fs st nm).lookup "valid" = some (.b false) ∧
    (∃ msg, (validatePlaylist fs st nm).lookup "error" = some (.s msg)) ∧
    (validatePlaylist fs st nm).lookup "total" = none ∧
    (validatePlaylist fs st nm).lookup "ok" = none ∧
    (validatePlaylist fs st nm).lookup "missing_count" = none ∧
    (validatePlaylist fs st nm).lookup "missing" = none := by
  simp only [validatePlaylist, h]
  exact ⟨rfl, ⟨_, rfl⟩, rfl, rfl, rfl, rfl⟩

/-- Witness for C10 at a concrete empty scheduler and unknown name. -/
theorem validate_unknown_name_witness :
    (wStateEmpty.playlists.lookup "missing" = none) ∧
    ((validatePlaylist (fun _ => false) wStateEmpty "missing").lookup "valid" =
        some (.b false) ∧
      (∃ msg, (validatePlaylist (fun _ => false) wStateEmpty "missing").lookup
          "error" = some (.s msg)) ∧
      (validatePlaylist (fun _ => false) wStateEmpty "missing").lookup "total" =
        none ∧
      (validatePlaylist (fun _ => false) wStateEmpty "missing").lookup "ok" =
        none ∧
      (validatePlaylist (fun _ => false) wStateEmpty "missing").lookup
          "missing_count" = none ∧
      (validatePlaylist (fun _ => false) wStateEmpty "missing").lookup
          "missing" = none) :=
  ⟨rfl, validate_unknown_name (fun _ => false) wStateEmpty "missing" rfl⟩

/-- C6: while a previous overlay sequence task is still running (held in
the single task slot and not done), `trigger` first cancels that task and
issues the best-effort hide to the control surface, and only then creates
the new sequence task; afterwards the single slot holds exactly the new
task, so at most one sequence task is ever in flight. -/
theorem trigger_cancels_then_creates (cfg : OverlayConfig) (st : OverlayState)
    (text : List Char) (hold? delay? : Option PyNum) (t : OverlayTask)
    (hrun : st.timer_task = some t) (hdone : t.done = false) :
    (trigger cfg st text hold? delay?).2.2 =
      [OEffect.cancel t.id, OEffect.hideAttempt,
       OEffect.createTask st.next_id text (hold?.getD cfg.hold_sec)
         (delay?.getD cfg.delay_sec),
       OEffect.callbackFired text (hold?.getD cfg.hold_sec)
         (delay?.getD cfg.delay_sec)] ∧
    (trigger cfg st text hold? delay?).1.timer_task =
      some { id := st.next_id, done := false } := by
  simp [trigger, hrun, hdone]

/-- Witness for C6 at a concrete running-task state. -/
theorem trigger_cancels_then_creates_witness :
    (wOverlayState.timer_task = some wOverlayTask ∧ wOverlayTask.done = false) ∧
    ((trigger {} wOverlayState "New".data none none).2.2 =
      [OEffect.cancel 7, OEffect.hideAttempt,
       OEffect.createTask 8 "New".data (PyNum.fin ⟨8, 0⟩) (PyNum.fin ⟨1, 0⟩),
       OEffect.callbackFired "New".data (PyNum.fin ⟨8, 0⟩) (PyNum.fin ⟨1, 0⟩)] ∧
     (trigger {} wOverlayState "New".data none none).1.timer_task =
       some { id := 8, done := false }) :=
  ⟨⟨rfl, rfl⟩,
   trigger_cancels_then_creates {} wOverlayState "New".data none none
     wOverlayTask rfl rfl⟩

/-- C2: for an active non-empty playlist with `loop = false` whose cursor
sits at the last index, `next()` returns `none`, leaves the cursor at the
last index, and performs only the persistence write on that call —
neither the media-update hook nor any track-change listener fires (the
effect trace is exactly the one save). -/
theorem next_at_end_no_loop (rng : List Nat → List Nat) (st : SchedState)
    (src? : Option String) (pl : Playlist) (hpl : activePl st = some pl)
    (hne : pl.items ≠ []) (hloop : pl.loop = false)
    (hpos : st.position = (pl.items.length : Int) - 1) :
    (next rng st src?).2.1 = none ∧
    (next rng st src?).1.position = (pl.items.length : Int) - 1 ∧
    (next rng st src?).2.2 =
      [SEffect.save (stateRecord (next rng st src?).1)] := by
  have hcond : (pl.items.length : Int) ≤ st.position + 1 := by omega
  simp [next, hpl, hne, hloop, hcond]

/-- Witness for C2 at a concrete two-item no-loop playlist at index 1. -/
theorem next_at_end_no_loop_witness :
    (activePl wStateNoLoop = some wNoLoop ∧ wNoLoop.items ≠ [] ∧
      wNoLoop.loop = false ∧
      wStateNoLoop.position = (wNoLoop.items.length : Int) - 1) ∧
    ((next idRng wStateNoLoop none).2.1 = none ∧
     (next idRng wStateNoLoop none).1.position =
        (wNoLoop.items.length : Int) - 1 ∧
     (next idRng wStateNoLoop none).2.2 =
        [SEffect.save (stateRecord (next idRng wStateNoLoop none).1)]) :=
  ⟨⟨rfl, by decide, rfl, rfl⟩,
   next_at_end_no_loop idRng wStateNoLoop none wNoLoop rfl (by decide) rfl rfl⟩

/-- The common operation tail performs exactly one persistence write, of
the post-mutation state's record. -/
theorem savedRecords_opEffects (st2 : SchedState) (src : String) :
    savedRecords (opEffects st2 src).2 = [stateRecord st2] := by
  unfold opEffects savedRecords
  cases currentItem st2 <;> simp

/-- C5: after every successful mutation by activate/next/previous/seek
(and before the result is returned — the save sits in the operation's
effect trace), the scheduler performs exactly one persistence write, and
the record written is the `StateRecord` of the post-mutation state, which
carries exactly the four fields `active_playlist`, `position`,
`source_name`, `auto_advance`. -/
theorem state_persisted_after_mutation :
    (∀ rng st nm pos src? pl, List.lookup nm st.playlists = some pl →
      savedRecords (activate rng st nm pos src?).2.2 =
        [stateRecord (activate rng st nm pos src?).1]) ∧
    (∀ rng st src? pl, activePl st = some pl → pl.items ≠ [] →
      savedRecords (next rng st src?).2.2 =
        [stateRecord (next rng st src?).1]) ∧
    (∀ st src? pl, activePl st = some pl → pl.items ≠ [] →
      savedRecords (previousOp st src?).2.2 =
        [stateRecord (previousOp st src?).1]) ∧
    (∀ st pos src? pl, activePl st = some pl →
      savedRecords (seek st pos src?).2.2 =
        [stateRecord (seek st pos src?).1]) := by
  refine ⟨?_, ?_, ?_, ?_⟩
  · intro rng st nm pos src? pl h
    simp [activate, h, savedRecords_opEffects]
  · intro rng st src? pl h hne
    simp only [next, h]
    rw [if_neg hne]
    by_cases hc : (pl.items.length : Int) ≤ st.position + 1
    · rw [if_pos hc]
      by_cases hl : pl.loop = true
      · rw [if_pos hl]; simp [savedRecords_opEffects]
      · rw [if_neg hl]; simp [savedRecords]
    · rw [if_neg hc]; simp [savedRecords_opEffects]
  · intro st src? pl h hne
    simp [previousOp, h, hne, savedRecords_opEffects]
  · intro st pos src? pl h
    simp [seek, h, savedRecords_opEffects]

/-- Witness for C5: each conjunct applied at a concrete state. -/
theorem state_persisted_after_mutation_witness :
    (List.lookup "test" wState.playlists = some wPlaylist ∧
      savedRecords (activate idRng wState "test" 0 none).2.2 =
        [stateRecord (activate idRng wState "test" 0 none).1]) ∧
    (activePl wState = some wPlaylist ∧ wPlaylist.items ≠ [] ∧
      savedRecords (next idRng wState none).2.2 =
        [stateRecord (next idRng wState none).1]) ∧
    (savedRecords (previousOp wState none).2.2 =
      [stateRecord (previousOp wState none).1]) ∧
    (savedRecords (seek wState 1 none).2.2 =
      [stateRecord (seek wState 1 none).1]) :=
  ⟨⟨rfl, state_persisted_after_mutation.1 idRng wState "test" 0 none wPlaylist
      rfl⟩,
   ⟨rfl, by decide,
    state_persisted_after_mutation.2.1 idRng wState none wPlaylist rfl
      (by decide)⟩,
   state_persisted_after_mutation.2.2.1 wState none wPlaylist rfl (by decide),
   state_persisted_after_mutation.2.2.2 wState 1 none wPlaylist rfl⟩

/-- C7 counterexample: a registered preset links a playlist and the
playlist activation raises; `activate` completes and returns, but its
results list contains no entry for the linked-playlist step — so the
results list does not contain "an outcome entry for every step". -/
theorem preset_playlist_raise_no_entry :
    presetActivate false cSwitch cObs (some cPlFail) [("p1", cPreset)] "p1" =
      .ok ("p1", [PEntry.switchSkipped]) ∧
    hasPlaylistEntry [PEntry.switchSkipped] = false :=
  ⟨rfl, rfl⟩

/-- C7 amended: provided the scene switch itself does not raise (when
connected it is unguarded, and a raising switch would propagate),
`activate` on a registered preset runs the pipeline to completion and
returns, in order: the scene-switch entry (a skipped entry when the
control surface is disconnected), one entry per configured side-effect
action (unknown action types a soft "unknown action" result; an action
that raises an error entry, with the remaining actions still run), and a
linked-playlist entry exactly when a playlist is linked, a playlist
manager is attached, and the activation does not raise — a raising
playlist activation is caught and contributes no entry. -/
theorem preset_activate_full_results (connected : Bool)
    (switchScene : String → Except String (List (String × PVal)))
    (obsBeh : ObsCall → Except String (List (String × PVal)))
    (plActivate : Option (String → Except String (Option PlaylistItem)))
    (presets : List (String × ScenePreset)) (nm : String)
    (preset : ScenePreset) (r : List (String × PVal))
    (hfound : presets.lookup nm = some preset)
    (hsw : connected = true → switchScene preset.scene_name = .ok r) :
    presetActivate connected switchScene obsBeh plActivate presets nm =
      .ok (nm,
        (if connected then PEntry.switchDone r else PEntry.switchSkipped) ::
        preset.actions.map (entryOfAction obsBeh) ++
        (match preset.playlist, plActivate with
         | some pn, some f =>
           match f pn with
           | .ok item => [PEntry.playlistDone pn (item.map (fun it => it.title))]
           | .error _ => []
         | _, _ => [])) := by
  cases connected
  · simp [presetActivate, hfound]
  · simp [presetActivate, hfound, hsw rfl]

/-- Witness for C7's amended theorem: a connected activation of a preset
with one known and one unknown action and no linked playlist. -/
theorem preset_activate_full_results_witness :
    (List.lookup "p2" [("p2", cPresetActs)] = some cPresetActs ∧
      cSwitch cPresetActs.scene_name =
        .ok [("scene", .s "SceneB"), ("status", .s "ok")]) ∧
    presetActivate true cSwitch cObs none [("p2", cPresetActs)] "p2" =
      .ok ("p2",
        PEntry.switchDone [("scene", .s "SceneB"), ("status", .s "ok")] ::
        [PEntry.actionDone "set_mute" [("status", .s "ok")],
         PEntry.actionDone "bogus"
           [("status", .s "unknown action type: bogus")]] ++ []) :=
  ⟨⟨rfl, rfl⟩,
   preset_activate_full_results true cSwitch cObs none [("p2", cPresetActs)]
     "p2" cPresetActs [("scene", .s "SceneB"), ("status", .s "ok")] rfl
     (fun _ => rfl)⟩

/-- Before the final wrapping call, `k` calls of `next` from position 0 on
a non-shuffled looping playlist leave the state at position `k`. -/
theorem nextIter_position (rng : List Nat → List Nat) (src? : Option String)
    (st : SchedState) (pl : Playlist) (hpl : activePl st = some pl)
    (hne : pl.items ≠ []) (hpos : st.position = 0) :
    ∀ k, k < pl.items.length →
      (nextIter rng src? k st).1 = { st with position := (k : Int) } := by
  intro k
  induction k with
  | zero =>
    intro _
    show st = { st with position := (0 : Int) }
    rw [← hpos]
  | succ k ih =>
    intro hk
    have hk' : k < pl.items.length := by omega
    simp only [nextIter]
    rw [ih hk']
    have hpl' : activePl { st with position := (k : Int) } = some pl := hpl
    simp only [next, hpl']
    rw [if_neg hne]
    have hc : ¬ ((pl.items.length : Int) ≤ (k : Int) + 1) := by
      omega
    rw [if_neg hc]
    dsimp only
    norm_cast

/-- C1: on a non-empty, non-shuffled playlist of length `N` with
`loop = true`, active at position 0, the `N`-th call of `next()` returns
the item that was current at position 0 (the first item) and the cursor
is back at position 0 (wrap invariant). -/
theorem next_wraps_to_start (rng : List Nat → List Nat) (src? : Option String)
    (st : SchedState) (pl : Playlist) (hpl : activePl st = some pl)
    (hne : pl.items ≠ []) (hsh : pl.shuffle = false) (hloop : pl.loop = true)
    (hpos : st.position = 0) :
    (nextIter rng src? pl.items.length st).1.position = 0 ∧
    (nextIter rng src? pl.items.length st).2 = currentItem st ∧
    currentItem st = pl.items.get? 0 := by
  have hlen : 0 < pl.items.length := List.length_pos.mpr hne
  have hcur : currentItem st = pl.items.get? 0 := by
    simp only [currentItem, resolveIndex, hpl]
    rw [if_neg hne, if_neg (by simp [hsh]), if_pos hne, hpos]
    simp
  have heta : ({ st with position := (0 : Int) } : SchedState) = st := by
    rw [← hpos]
  obtain ⟨N, hN⟩ : ∃ N, pl.items.length = N + 1 :=
    ⟨pl.items.length - 1, by omega⟩
  have hprev : (nextIter rng src? N st).1 = { st with position := (N : Int) } :=
    nextIter_position rng src? st pl hpl hne hpos N (by omega)
  have hpl' : activePl { st with position := (N : Int) } = some pl := hpl
  rw [hN]
  simp only [nextIter, hprev, next, hpl']
  rw [if_neg hne]
  have hc : (pl.items.length : Int) ≤ (N : Int) + 1 := by
    rw [hN]; push_cast; omega
  rw [if_pos hc, if_pos hloop, if_neg (by simp [hsh])]
  refine ⟨rfl, ?_, hcur⟩
  show (opEffects { st with position := (0 : Int) }
      (src?.getD st.source_name)).1 = currentItem st
  rw [opEffects, heta]

/-- Witness for C1: two items, loop on, two calls of `next` wrap back to
the first item. -/
theorem next_wraps_to_start_witness :
    (activePl wState = some wPlaylist ∧ wPlaylist.items ≠ [] ∧
      wPlaylist.shuffle = false ∧ wPlaylist.loop = true ∧
      wState.position = 0) ∧
    ((nextIter idRng none wPlaylist.items.length wState).1.position = 0 ∧
     (nextIter idRng none wPlaylist.items.length wState).2 =
        currentItem wState ∧
     currentItem wState = wPlaylist.items.get? 0) :=
  ⟨⟨rfl, by decide, rfl, rfl, rfl⟩,
   next_wraps_to_start idRng none wState wPlaylist rfl (by decide) rfl rfl rfl⟩

/-- The scheduler invariant only reads the active name, the playlist
mapping and the shuffled order, so position-only updates preserve it. -/
theorem schedInv_set_position (st : SchedState) (p : Int) (h : SchedInv st) :
    SchedInv { st with position := p } :=
  fun pl hpl hsh => h pl hpl hsh

/-- C3: for every scheduler state satisfying the reachable-state
invariant with a non-empty active playlist, the resolved item index
equals the specification's formula (permutation entry at cursor mod
permutation length when shuffled, cursor mod item count otherwise) and is
a valid item index; and the invariant is established/preserved by
activate, next, previous, and seek (`rng` modelling `random.shuffle` as a
permutation). -/
theorem cursor_always_resolvable :
    (∀ st pl, SchedInv st → activePl st = some pl → pl.items ≠ [] →
      resolveIndex st = specResolveIndex st pl ∧
      resolveIndex st < pl.items.length) ∧
    (∀ rng, (∀ l, (rng l).Perm l) → ∀ st nm pos src?, SchedInv st →
      SchedInv (activate rng st nm pos src?).1) ∧
    (∀ rng, (∀ l, (rng l).Perm l) → ∀ st src?, SchedInv st →
      SchedInv (next rng st src?).1) ∧
    (∀ st src?, SchedInv st → SchedInv (previousOp st src?).1) ∧
    (∀ st pos src?, SchedInv st → SchedInv (seek st pos src?).1) := by
  refine ⟨?_, ?_, ?_, ?_, ?_⟩
  · intro st pl hInv hpl hne
    have hnlen : 0 < pl.items.length := List.length_pos.mpr hne
    simp only [resolveIndex, specResolveIndex, hpl]
    by_cases hsh : pl.shuffle = true
    · have hperm := hInv pl hpl hsh
      have hlen : st.shuffled_order.length = pl.items.length := by
        simpa using hperm.length_eq
      have hord : st.shuffled_order ≠ [] := by
        intro h0
        rw [h0] at hlen
        simp at hlen
        omega
      have hop : 0 < st.shuffled_order.length := List.length_pos.mpr hord
      have hidx : (st.position % (st.shuffled_order.length : Int)).toNat <
          st.shuffled_order.length := by
        have h1 : (0 : Int) ≤ st.position % (st.shuffled_order.length : Int) :=
          Int.emod_nonneg _ (by exact_mod_cast hop.ne')
        have h2 : st.position % (st.shuffled_order.length : Int) <
            (st.shuffled_order.length : Int) :=
          Int.emod_lt_of_pos _ (by exact_mod_cast hop)
        omega
      rw [if_pos ⟨hsh, hord⟩, if_pos hsh]
      refine ⟨rfl, ?_⟩
      have hmem : st.shuffled_order.getD
          ((st.position % (st.shuffled_order.length : Int)).toNat) 0 ∈
          st.shuffled_order := by
        rw [List.getD_eq_getElem _ _ hidx]
        exact List.getElem_mem hidx
      have hmem2 := (hperm.mem_iff).mp hmem
      exact List.mem_range.mp hmem2
    · have hidx : (st.position % (pl.items.length : Int)).toNat <
          pl.items.length := by
        have h1 : (0 : Int) ≤ st.position % (pl.items.length : Int) :=
          Int.emod_nonneg _ (by exact_mod_cast hnlen.ne')
        have h2 : st.position % (pl.items.length : Int) <
            (pl.items.length : Int) := Int.emod_lt_of_pos _ (by exact_mod_cast hnlen)
        omega
      rw [if_neg (fun h => hsh h.1), if_neg hsh, if_pos hne]
      exact ⟨rfl, hidx⟩
  · intro rng hrng st nm pos src? hInv
    simp only [activate]
    cases hl : List.lookup nm st.playlists with
    | none => exact hInv
    | some pl =>
      intro pl' hpl' hsh'
      obtain rfl : pl = pl' := Option.some.inj (hl.symm.trans hpl')
      show (if pl.shuffle = true then rng (List.range pl.items.length)
        else []).Perm (List.range pl.items.length)
      rw [if_pos hsh']
      exact hrng _
  · intro rng hrng st src? hInv
    simp only [next]
    cases hpl : activePl st with
    | none => exact hInv
    | some pl =>
      dsimp only
      by_cases hne : pl.items = []
      · rw [if_pos hne]; exact hInv
      rw [if_neg hne]
      by_cases hc : (pl.items.length : Int) ≤ st.position + 1
      · rw [if_pos hc]
        by_cases hl : pl.loop = true
        · rw [if_pos hl]
          intro pl' hpl' hsh'
          obtain rfl : pl = pl' := Option.some.inj (hpl.symm.trans hpl')
          show (if pl.shuffle = true then rng st.shuffled_order
            else st.shuffled_order).Perm (List.range pl.items.length)
          rw [if_pos hsh']
          exact (hrng st.shuffled_order).trans (hInv pl hpl hsh')
        · rw [if_neg hl]; exact schedInv_set_position st _ hInv
      · rw [if_neg hc]; exact schedInv_set_position st _ hInv
  · intro st src? hInv
    simp only [previousOp]
    cases hpl : activePl st with
    | none => exact hInv
    | some pl =>
      dsimp only
      by_cases hne : pl.items = []
      · rw [if_pos hne]; exact hInv
      · rw [if_neg hne]; exact schedInv_set_position st _ hInv
  · intro st pos src? hInv
    simp only [seek]
    cases hpl : activePl st with
    | none => exact hInv
    | some pl => exact schedInv_set_position st _ hInv

/-- The concrete shuffled state satisfies the scheduler invariant. -/
theorem wShufState_inv : SchedInv wShufState := by
  intro pl hpl hsh
  obtain rfl : wShufPl = pl := Option.some.inj hpl
  decide

/-- Witness for C3: the resolution formula and bound at a concrete
shuffled state with cursor 5 over a 2-item playlist. -/
theorem cursor_always_resolvable_witness :
    (SchedInv wShufState ∧ activePl wShufState = some wShufPl ∧
      wShufPl.items ≠ []) ∧
    (resolveIndex wShufState = specResolveIndex wShufState wShufPl ∧
      resolveIndex wShufState < wShufPl.items.length) :=
  ⟨⟨wShufState_inv, rfl, by decide⟩,
   cursor_always_resolvable.1 wShufState wShufPl wShufState_inv rfl (by decide)⟩

/-- A list with a cons prefix starts with that head character. -/
theorem isPrefixOf_head {c : Char} {cs l : List Char}
    (h : (c :: cs).isPrefixOf l = true) : l.head? = some c := by
  cases l with
  | nil => simp [List.isPrefixOf] at h
  | cons x xs =>
    simp only [List.isPrefixOf, Bool.and_eq_true, beq_iff_eq] at h
    simp [h.1]

/-- A list whose head is not `c` has no prefix starting with `c`. -/
theorem not_isPrefixOf_of_head_ne {c : Char} {cs l : List Char}
    (h : l.head? ≠ some c) : (c :: cs).isPrefixOf l = false := by
  cases hip : (c :: cs).isPrefixOf l
  · rfl
  · exact absurd (isPrefixOf_head hip) h

/-- C9 amended: for a track line with no pending title, the parser's
default title is the line itself when the line starts with the bare text
`"http"`, and the path's filename stem otherwise — the code tests an
`"http"` text prefix, not the data model's `is_url` classification, so
`rtmp://` and `rtsp://` paths (remote per `is_url`) get stem titles and
any non-URL path beginning with `"http"` gets the full path. -/
theorem track_default_title (line : List Char) (rest : List (List Char))
    (m : PMeta) (tl : List PlaylistItem)
    (hstrip : pyStrip line = line) (hne : line ≠ [])
    (hhash : line.head? ≠ some '#') (htitle : m.title = none)
    (hrest : parseLines rest {} = .ok tl) :
    parseLines (line :: rest) m = .ok (mkItem line m :: tl) ∧
    (mkItem line m).title =
      (if ("http".data).isPrefixOf line then line else pyStem line) := by
  have h1 : ¬(line = [] ∨ line = "#EXTM3U".data) := by
    rintro (h | h)
    · exact hne h
    · exact hhash (by rw [h]; rfl)
  have h2 : ("#EXTINF:".data).isPrefixOf line = false :=
    not_isPrefixOf_of_head_ne hhash
  have h3 : ("#EXTVLCOPT:start-time=".data).isPrefixOf line = false :=
    not_isPrefixOf_of_head_ne hhash
  have h4 : ("#EXTVLCOPT:stop-time=".data).isPrefixOf line = false :=
    not_isPrefixOf_of_head_ne hhash
  have h5 : ("#EXTOVERLAY:".data).isPrefixOf line = false :=
    not_isPrefixOf_of_head_ne hhash
  constructor
  · simp only [parseLines, hstrip, h2, h3, h4, h5, Bool.false_eq_true,
      if_false, if_neg h1, if_neg hhash, hrest]
  · simp [mkItem, htitle]

/-- Witness for C9's amended theorem at a concrete local track line. -/
theorem track_default_title_witness :
    (pyStrip "video.mp4".data = "video.mp4".data ∧ "video.mp4".data ≠ [] ∧
      ("video.mp4".data).head? ≠ some '#' ∧ (({} : PMeta)).title = none ∧
      parseLines [] {} = .ok []) ∧
    (parseLines ["video.mp4".data] {} =
        .ok [mkItem "video.mp4".data {}] ∧
      (mkItem "video.mp4".data {}).title =
        (if ("http".data).isPrefixOf "video.mp4".data then "video.mp4".data
         else pyStem "video.mp4".data)) :=
  ⟨⟨by decide, by decide, by decide, rfl, rfl⟩,
   track_default_title "video.mp4".data [] {} [] (by decide) (by decide)
     (by decide) rfl rfl⟩

/-- C9 counterexample: an `rtmp://` path is remote per the data model's
`is_url`, yet its default title is the filename stem, not the path. -/
theorem remote_title_is_stem :
    parseContent ("rtmp://host/video.mp4".data) = .ok [c9Item] ∧
    c9Item.is_url = true ∧ c9Item.title ≠ c9Item.path := by
  refine ⟨by rfl, by rfl, by decide⟩

/-- C8: the parser tolerates a `ValueError` from a malformed duration
(yielding `-1`), but a duration of `inf` parses as a float and then
raises an uncaught `OverflowError` in `int(float(dur_str))` — the
`except ValueError` guard does not catch it, so the whole parse aborts,
contradicting the claim that parsing never aborts on a malformed numeric
field. -/
theorem parse_numeric_error_handling :
    parseContent ("#EXTINF:abc,Song\ntrack.mp4".data) =
      .ok [{ path := "track.mp4".data, title := "Song".data,
             duration := -1 }] ∧
    parseContent ("#EXTINF:inf,Song\ntrack.mp4".data) = .error () := by
  exact ⟨by rfl, by rfl⟩

/-- C4 counterexample: the playlist parsed from `"d/ a.mp4"` has the
default stem title `" a"` (with a leading space); writing and re-parsing
yields title `"a"` — item count, duration and both trim values round-trip
at this input, but the title does not, so the round-trip law as claimed
fails. -/
theorem roundtrip_strips_title :
    parseContent ("d/ a.mp4".data) = .ok [c4Item] ∧
    parseContent (writeContent [c4Item]) = .ok [c4Item2] ∧
    c4Item2.duration = c4Item.duration ∧
    pyNumEq c4Item2.start_time c4Item.start_time ∧
    pyNumEq c4Item2.stop_time c4Item.stop_time ∧
    c4Item2.title ≠ c4Item.title := by
  refine ⟨by rfl, by rfl, rfl, rfl, rfl, by decide⟩

/-- Dropping a weaker class of characters first does not change a
whitespace-drop. -/
theorem dropWhile_dropWhile_isWS {p : Char → Bool}
    (hp : ∀ c, p c = true → isWS c = true) :
    ∀ y : List Char, (y.dropWhile p).dropWhile isWS = y.dropWhile isWS := by
  intro y
  induction y with
  | nil => rfl
  | cons h t ih =>
    by_cases hph : p h = true
    · rw [List.dropWhile_cons_of_pos hph, ih,
        List.dropWhile_cons_of_pos (hp h hph)]
    · rw [List.dropWhile_cons_of_neg (by simpa using hph)]

/-- End-of-list version of `dropWhile_dropWhile_isWS`. -/
theorem dropEndWhile_dropEndWhile_isWS {p : Char → Bool}
    (hp : ∀ c, p c = true → isWS c = true) (l : List Char) :
    dropEndWhile isWS (dropEndWhile p l) = dropEndWhile isWS l := by
  unfold dropEndWhile
  rw [List.reverse_reverse, dropWhile_dropWhile_isWS hp]

/-- Stripping after removing trailing whitespace-class characters equals
plain stripping. -/
theorem pyStrip_dropEndWhile {p : Char → Bool}
    (hp : ∀ c, p c = true → isWS c = true) (l : List Char) :
    pyStrip (dropEndWhile p l) = pyStrip l := by
  unfold pyStrip
  rw [dropEndWhile_dropEndWhile_isWS hp]

/-- `rstrip("\n\r")` before `strip()` is absorbed by the strip. -/
theorem pyStrip_rstripNL (l : List Char) : pyStrip (rstripNL l) = pyStrip l :=
  pyStrip_dropEndWhile (by intro c hc; simp at hc; rcases hc with rfl | rfl <;> rfl) l

/-- A list whose head does not match is unchanged by `dropWhile`. -/
theorem dropWhile_eq_self_of_head {p : Char → Bool} {l : List Char}
    (h : ∀ c, l.head? = some c → p c = false) : l.dropWhile p = l := by
  cases l with
  | nil => rfl
  | cons x xs => exact List.dropWhile_cons_of_neg (by simp [h x rfl])

/-- A list whose last element does not match is unchanged by
`dropEndWhile`. -/
theorem dropEndWhile_eq_self_of_last {p : Char → Bool} {l : List Char}
    (h : ∀ c, l.getLast? = some c → p c = false) : dropEndWhile p l = l := by
  unfold dropEndWhile
  rw [dropWhile_eq_self_of_head (by simpa using h), List.reverse_reverse]

/-- `dropEndWhile` over an append whose left part ends in a non-matching
character only acts on the right part. -/
theorem dropEndWhile_append_last {p : Char → Bool} {a : List Char}
    (b : List Char) (h : ∀ c, a.getLast? = some c → p c = false) :
    dropEndWhile p (a ++ b) = a ++ dropEndWhile p b := by
  unfold dropEndWhile
  rw [List.reverse_append, List.dropWhile_append]
  split
  · next hemp =>
    have hb : (List.dropWhile p b.reverse).reverse = ([] : List Char) := by
      simp only [List.isEmpty_iff] at hemp
      rw [hemp]
      rfl
    rw [hb, List.append_nil]
    have h2 := dropEndWhile_eq_self_of_last h
    unfold dropEndWhile at h2
    exact h2
  · rw [List.reverse_append, List.reverse_reverse]

/-- Stripping a line made of a non-whitespace-delimited prefix and a
payload only right-strips the payload. -/
theorem pyStrip_head_append {a : List Char} (b : List Char) (ha : a ≠ [])
    (hx : ∀ c, a.head? = some c → isWS c = false)
    (hlast : ∀ c, a.getLast? = some c → isWS c = false) :
    pyStrip (a ++ b) = a ++ dropEndWhile isWS b := by
  unfold pyStrip
  rw [dropEndWhile_append_last b hlast]
  cases a with
  | nil => exact absurd rfl ha
  | cons x xs =>
    rw [List.cons_append, List.dropWhile_cons_of_neg (by simp [hx x rfl])]

/-- A list with no whitespace characters strips to itself. -/
theorem pyStrip_eq_self_of_no_ws {l : List Char}
    (h : ∀ c ∈ l, isWS c = false) : pyStrip l = l := by
  unfold pyStrip
  rw [dropEndWhile_eq_self_of_last (by
    intro c hc
    rcases List.getLast?_eq_some_iff.mp hc with ⟨ys, rfl⟩
    exact h c (by simp)),
    dropWhile_eq_self_of_head (by
    intro c hc
    exact h c (by cases l with
      | nil => simp at hc
      | cons y ys => simp at hc; simp [hc]))]

/-- Characters of a `dropEndWhile` come from the original list. -/
theorem mem_of_mem_dropEndWhile {p : Char → Bool} {l : List Char} {c : Char}
    (h : c ∈ dropEndWhile p l) : c ∈ l := by
  unfold dropEndWhile at h
  rw [List.mem_reverse] at h
  exact List.mem_reverse.mp ((List.dropWhile_sublist p).subset h)

/-- Characters of a stripped list come from the original list. -/
theorem mem_of_mem_pyStrip {l : List Char} {c : Char} (h : c ∈ pyStrip l) :
    c ∈ l := by
  unfold pyStrip at h
  exact mem_of_mem_dropEndWhile ((List.dropWhile_sublist isWS).subset h)

/-- The head surviving a `dropWhile` does not match the predicate. -/
theorem head?_dropWhile_false {p : Char → Bool} :
    ∀ (w : List Char) {c : Char}, (w.dropWhile p).head? = some c →
      p c = false := by
  intro w
  induction w with
  | nil => intro c hc; simp at hc
  | cons h t ih =>
    intro c hc
    by_cases hp : p h = true
    · rw [List.dropWhile_cons_of_pos hp] at hc
      exact ih hc
    · rw [List.dropWhile_cons_of_neg hp] at hc
      cases hc
      simpa using hp

/-- The last element surviving a `dropEndWhile` does not match. -/
theorem getLast?_dropEndWhile_false {p : Char → Bool} (w : List Char)
    {c : Char} (h : (dropEndWhile p w).getLast? = some c) : p c = false := by
  unfold dropEndWhile at h
  rw [List.getLast?_reverse] at h
  exact head?_dropWhile_false _ h

/-- The head of a stripped list is not whitespace. -/
theorem head_pyStrip_false {l : List Char} {c : Char}
    (h : (pyStrip l).head? = some c) : isWS c = false :=
  head?_dropWhile_false _ h

/-- The last element of a stripped list is not whitespace. -/
theorem last_pyStrip_false {l : List Char} {c : Char}
    (h : (pyStrip l).getLast? = some c) : isWS c = false := by
  have hsuf : pyStrip l <:+ dropEndWhile isWS l := List.dropWhile_suffix isWS
  obtain ⟨w, hw⟩ := hsuf
  have hne : pyStrip l ≠ [] := by
    intro h0
    rw [h0] at h
    simp at h
  have h2 : (dropEndWhile isWS l).getLast? = some c := by
    rw [← hw, List.getLast?_append_of_ne_nil _ hne]
    exact h
  exact getLast?_dropEndWhile_false _ h2

/-- Stripping is idempotent. -/
theorem pyStrip_idem (l : List Char) : pyStrip (pyStrip l) = pyStrip l := by
  show (dropEndWhile isWS (pyStrip l)).dropWhile isWS = pyStrip l
  rw [dropEndWhile_eq_self_of_last (fun c hc => last_pyStrip_false hc),
      dropWhile_eq_self_of_head (fun c hc => head_pyStrip_false hc)]

/-- Digit characters are exactly the ten ASCII digits. -/
theorem isDig_mem {c : Char} (h : isDig c = true) :
    c ∈ ("0123456789".data) := by
  simpa [isDig] using h

/-- Digit characters are not whitespace. -/
theorem isDig_not_ws {c : Char} (h : isDig c = true) : isWS c = false := by
  have hm := isDig_mem h
  fin_cases hm <;> rfl

/-- Digit characters are fixed by `Char.toLower`. -/
theorem isDig_toLower {c : Char} (h : isDig c = true) : Char.toLower c = c := by
  have hm := isDig_mem h
  fin_cases hm <;> rfl

/-- Digit characters are not among the parser's special characters. -/
theorem isDig_ne {c : Char} (h : isDig c = true) :
    c ≠ 'i' ∧ c ≠ 'n' ∧ c ≠ ',' ∧ c ≠ '-' ∧ c ≠ '+' ∧ c ≠ '.' ∧ c ≠ 'e' ∧
    c ≠ 'E' ∧ c ≠ '\n' ∧ c ≠ '=' := by
  have hm := isDig_mem h
  fin_cases hm <;> exact ⟨by decide, by decide, by decide, by decide,
    by decide, by decide, by decide, by decide, by decide, by decide⟩

/-- The `digCh` of a digit value is a digit character. -/
theorem isDig_digCh {d : Nat} (h : d < 10) : isDig (digCh d) = true := by
  interval_cases d <;> rfl

/-- `digVal` inverts `digCh` on digit values. -/
theorem digVal_digCh {d : Nat} (h : d < 10) : digVal (digCh d) = d := by
  interval_cases d <;> rfl

/-- `digitsVal` with an accumulator: the fold from `acc` scales the
accumulator by the length. -/
theorem foldl_digitsVal (l : List Char) :
    ∀ acc : Nat, l.foldl (fun a c => a * 10 + digVal c) acc =
      acc * 10 ^ l.length + digitsVal l := by
  induction l with
  | nil => intro acc; simp [digitsVal]
  | cons c t ih =>
    intro acc
    show t.foldl _ (acc * 10 + digVal c) = _
    rw [ih (acc * 10 + digVal c)]
    have hd : digitsVal (c :: t) = digVal c * 10 ^ t.length + digitsVal t := by
      show t.foldl _ (0 * 10 + digVal c) = _
      rw [ih (0 * 10 + digVal c)]
      ring
    rw [hd]
    simp [List.length_cons, pow_succ]
    ring

/-- `digitsVal` over an append. -/
theorem digitsVal_append (a b : List Char) :
    digitsVal (a ++ b) = digitsVal a * 10 ^ b.length + digitsVal b := by
  unfold digitsVal
  rw [List.foldl_append, foldl_digitsVal]
  rfl

/-- Correctness of `natDigitsAux`: value, digit-class, and non-emptiness. -/
theorem natDigitsAux_spec :
    ∀ fuel n, n ≤ fuel →
      digitsVal (natDigitsAux fuel n) = n ∧
      (∀ c ∈ natDigitsAux fuel n, isDig c = true) ∧
      (n ≠ 0 → natDigitsAux fuel n ≠ []) := by
  intro fuel
  induction fuel with
  | zero =>
    intro n hn
    obtain rfl : n = 0 := by omega
    exact ⟨rfl, by simp [natDigitsAux], by simp⟩
  | succ fuel ih =>
    intro n hn
    by_cases h0 : n = 0
    · subst h0
      refine ⟨?_, ?_, by simp⟩ <;> simp [natDigitsAux, digitsVal]
    · have hlt : n / 10 < n := Nat.div_lt_self (by omega) (by omega)
      have hrec := ih (n / 10) (by omega)
      have hmod : n % 10 < 10 := Nat.mod_lt _ (by omega)
      have heq : natDigitsAux (fuel + 1) n =
          natDigitsAux fuel (n / 10) ++ [digCh (n % 10)] := by
        rw [natDigitsAux, if_neg h0]
      rw [heq]
      refine ⟨?_, ?_, fun _ => by simp⟩
      · rw [digitsVal_append, hrec.1]
        have h1 : digitsVal [digCh (n % 10)] = n % 10 := by
          show 0 * 10 + digVal (digCh (n % 10)) = n % 10
          rw [digVal_digCh hmod]
          ring
        rw [h1]
        simp
        omega
      · intro c hc
        rcases List.mem_append.mp hc with h | h
        · exact hrec.2.1 c h
        · simp at h
          subst h
          exact isDig_digCh hmod

/-- `natDigits` correctness: value, digit-class and non-emptiness. -/
theorem natDigits_spec (n : Nat) :
    digitsVal (natDigits n) = n ∧ (∀ c ∈ natDigits n, isDig c = true) ∧
    natDigits n ≠ [] := by
  unfold natDigits
  by_cases h0 : n = 0
  · subst h0
    rw [if_pos rfl]
    refine ⟨rfl, ?_, by simp⟩
    intro c hc
    simp at hc
    subst hc
    rfl
  · rw [if_neg h0]
    obtain ⟨h1, h2, h3⟩ := natDigitsAux_spec n n le_rfl
    exact ⟨h1, h2, h3 h0⟩

/-- `takeWhile` walks through a run of matching characters. -/
theorem takeWhile_append_all {p : Char → Bool} {a : List Char} (b : List Char)
    (h : ∀ c ∈ a, p c = true) :
    (a ++ b).takeWhile p = a ++ b.takeWhile p := by
  induction a with
  | nil => rfl
  | cons x xs ih =>
    rw [List.cons_append, List.takeWhile_cons_of_pos (h x (by simp)),
      ih (fun c hc => h c (by simp [hc]))]
    rfl

/-- `dropWhile` walks through a run of matching characters. -/
theorem dropWhile_append_all {p : Char → Bool} {a : List Char} (b : List Char)
    (h : ∀ c ∈ a, p c = true) :
    (a ++ b).dropWhile p = b.dropWhile p := by
  induction a with
  | nil => rfl
  | cons x xs ih =>
    rw [List.cons_append, List.dropWhile_cons_of_pos (h x (by simp))]
    exact ih (fun c hc => h c (by simp [hc]))

/-- `takeWhile` stops at a non-matching head. -/
theorem takeWhile_eq_nil_of_head {p : Char → Bool} {r : List Char}
    (h : ∀ c, r.head? = some c → p c = false) : r.takeWhile p = [] := by
  cases r with
  | nil => rfl
  | cons x xs => exact List.takeWhile_cons_of_neg (by simp [h x rfl])

/-- `takeDigs` through a digit run followed by a non-digit head. -/
theorem takeDigs_append {ds : List Char} (r : List Char)
    (hds : ∀ c ∈ ds, isDig c = true)
    (hr : ∀ c, r.head? = some c → isDig c = false) :
    takeDigs (ds ++ r) = (ds, r) := by
  unfold takeDigs
  rw [takeWhile_append_all r hds, takeWhile_eq_nil_of_head hr,
    List.append_nil, dropWhile_append_all r hds,
    dropWhile_eq_self_of_head hr]

/-- Parsing an optionally-signed digit run with a trailing suffix that
starts at a non-digit, non-sign, non-dot position: the shared front end
of the numeral round-trip lemmas.  Returns the sign, the digits and the
unconsumed suffix. -/
theorem pyParseNumber_front (neg : Bool) (m : Nat) (tail : List Char)
    (htail : ∀ c ∈ tail, isWS c = false)
    (hhead : ∀ c, tail.head? = some c →
      isDig c = false ∧ c ≠ '.') :
    pyStrip ((if neg then ['-'] else []) ++ natDigits m ++ tail) =
      (if neg then ['-'] else []) ++ natDigits m ++ tail ∧
    parseSignCh ((if neg then ['-'] else []) ++ natDigits m ++ tail) =
      (neg, natDigits m ++ tail) ∧
    (∀ w : List Char, ((natDigits m ++ tail).map Char.toLower = w →
      w.head? = some (Char.toLower (natDigits m).head!)) ) ∧
    takeDigs (natDigits m ++ tail) = (natDigits m, tail) ∧
    parseFracPart tail = ([], tail) := by
  obtain ⟨hv, hdig, hne⟩ := natDigits_spec m
  obtain ⟨x, xs, hxs⟩ := List.exists_cons_of_ne_nil hne
  have hxd : isDig x = true := hdig x (by rw [hxs]; simp)
  refine ⟨?_, ?_, ?_, ?_, ?_⟩
  · apply pyStrip_eq_self_of_no_ws
    intro c hc
    rcases List.mem_append.mp hc with h | h
    · rcases List.mem_append.mp h with h2 | h2
      · cases neg
        · simp at h2
        · simp at h2
          subst h2
          rfl
      · exact isDig_not_ws (hdig c h2)
    · exact htail c h
  · cases neg
    · have h1 : x ≠ '+' := (isDig_ne hxd).2.2.2.2.1
      have h2 : x ≠ '-' := (isDig_ne hxd).2.2.2.1
      simp only [if_neg (by simp : ¬(false = true)), List.nil_append, hxs,
        List.cons_append, parseSignCh]
      rw [if_neg h1, if_neg h2]
    · simp [parseSignCh]
  · intro w hw
    subst hw
    rw [hxs]
    simp
  · apply takeDigs_append tail hdig
    intro c hc
    exact (hhead c hc).1
  · cases tail with
    | nil => rfl
    | cons y ys =>
      have heq : parseFracPart (y :: ys) =
          if y = '.' then takeDigs ys else ([], y :: ys) := rfl
      rw [heq, if_neg (hhead y rfl).2]

/-- Parsing back an optionally-signed digit run: the written form of an
integer. -/
theorem pyParseNumber_sign_digits (neg : Bool) (m : Nat) :
    pyParseNumber ((if neg then ['-'] else []) ++ natDigits m) =
      some (.fin (mkPyFloat neg m 0 0)) := by
  obtain ⟨hv, hdig, hne⟩ := natDigits_spec m
  obtain ⟨x, xs, hxs⟩ := List.exists_cons_of_ne_nil hne
  have hxd : isDig x = true := hdig x (by rw [hxs]; simp)
  have hfront := pyParseNumber_front neg m []
    (by intro c hc; simp at hc)
    (by intro c hc; simp at hc)
  simp only [List.append_nil] at hfront
  obtain ⟨hstrip, hsign, hlow, htake, hfrac⟩ := hfront
  have hlowhead : ((natDigits m).map Char.toLower).head? =
      some (Char.toLower (natDigits m).head!) := hlow _ rfl
  have hxhd : (natDigits m).head! = x := by rw [hxs]; rfl
  have hlne1 : (natDigits m).map Char.toLower ≠ "inf".data := by
    intro h
    rw [h] at hlowhead
    rw [hxhd, isDig_toLower hxd] at hlowhead
    exact (isDig_ne hxd).1 (by simpa using hlowhead.symm)
  have hlne2 : (natDigits m).map Char.toLower ≠ "infinity".data := by
    intro h
    rw [h] at hlowhead
    rw [hxhd, isDig_toLower hxd] at hlowhead
    exact (isDig_ne hxd).1 (by simpa using hlowhead.symm)
  have hlne3 : (natDigits m).map Char.toLower ≠ "nan".data := by
    intro h
    rw [h] at hlowhead
    rw [hxhd, isDig_toLower hxd] at hlowhead
    exact (isDig_ne hxd).2.1 (by simpa using hlowhead.symm)
  simp only [pyParseNumber, hstrip, hsign, htake]
  rw [if_neg (by
    rintro (h | h)
    · exact hlne1 h
    · exact hlne2 h), if_neg hlne3]
  simp only [parseFracPart, takeDigs, List.takeWhile_nil, List.dropWhile_nil]
  rw [if_neg (by
    rintro ⟨h, -⟩
    exact hne h)]
  simp [parseExpPart, hv]

/-- Parsing back a signed digit run with an `e-K` exponent: the written
form of a finite float. -/
theorem pyParseNumber_sign_digits_exp (neg : Bool) (m k : Nat) :
    pyParseNumber ((if neg then ['-'] else []) ++ natDigits m ++
        'e' :: '-' :: natDigits k) =
      some (.fin (mkPyFloat neg m 0 (-(k : Int)))) := by
  obtain ⟨hv, hdig, hne⟩ := natDigits_spec m
  obtain ⟨x, xs, hxs⟩ := List.exists_cons_of_ne_nil hne
  have hxd : isDig x = true := hdig x (by rw [hxs]; simp)
  obtain ⟨hvk, hdigk, hnek⟩ := natDigits_spec k
  have hfront := pyParseNumber_front neg m ('e' :: '-' :: natDigits k)
    (by
      intro c hc
      rcases List.mem_cons.mp hc with rfl | hc2
      · rfl
      rcases List.mem_cons.mp hc2 with rfl | hc3
      · rfl
      · exact isDig_not_ws (hdigk c hc3))
    (by
      intro c hc
      cases hc
      exact ⟨rfl, by decide⟩)
  obtain ⟨hstrip, hsign, hlow, htake, hfrac⟩ := hfront
  have hlowhead := hlow _ rfl
  have hxhd : (natDigits m).head! = x := by rw [hxs]; rfl
  have hlne1 : (natDigits m ++ 'e' :: '-' :: natDigits k).map Char.toLower ≠
      "inf".data := by
    intro h
    rw [h] at hlowhead
    rw [hxhd, isDig_toLower hxd] at hlowhead
    exact (isDig_ne hxd).1 (by simpa using hlowhead.symm)
  have hlne2 : (natDigits m ++ 'e' :: '-' :: natDigits k).map Char.toLower ≠
      "infinity".data := by
    intro h
    rw [h] at hlowhead
    rw [hxhd, isDig_toLower hxd] at hlowhead
    exact (isDig_ne hxd).1 (by simpa using hlowhead.symm)
  have hlne3 : (natDigits m ++ 'e' :: '-' :: natDigits k).map Char.toLower ≠
      "nan".data := by
    intro h
    rw [h] at hlowhead
    rw [hxhd, isDig_toLower hxd] at hlowhead
    exact (isDig_ne hxd).2.1 (by simpa using hlowhead.symm)
  have htdk : takeDigs (natDigits k) = (natDigits k, []) := by
    have := @takeDigs_append (natDigits k) []
      hdigk (by intro c hc; simp at hc)
    simpa using this
  have hexp : parseExpPart ('e' :: '-' :: natDigits k) =
      some (-(k : Int), []) := by
    have hsg : parseSignCh ('-' :: natDigits k) = (true, natDigits k) := by
      simp [parseSignCh]
    simp [parseExpPart, hsg, htdk, hnek, hvk]
  simp only [pyParseNumber, hstrip, hsign, htake, hfrac]
  rw [if_neg (by
    rintro (h | h)
    · exact hlne1 h
    · exact hlne2 h), if_neg hlne3]
  rw [if_neg (by
    rintro ⟨h, -⟩
    exact hne h)]
  simp [hexp, hv]

/-- Normal form of `mkPyFloat` at fraction length 0 and a non-positive
exponent. -/
theorem mkPyFloat_neg_exp (neg : Bool) (m k : Nat) :
    mkPyFloat neg m 0 (-(k : Int)) =
      ⟨(if neg then -(m : Int) else (m : Int)), k⟩ := by
  unfold mkPyFloat
  by_cases hk : k = 0
  · subst hk
    rw [if_pos (by simp)]
    simp
  · rw [if_neg (by omega)]
    congr 1
    omega

/-- `mkPyFloat` with negative sign, no fraction, exponent `-k`. -/
theorem mkPyFloat_true_exp (m k : Nat) :
    mkPyFloat true m 0 (-(k : Int)) = ⟨-(m : Int), k⟩ := by
  rw [mkPyFloat_neg_exp]
  simp

/-- `mkPyFloat` with positive sign, no fraction, exponent `-k`. -/
theorem mkPyFloat_false_exp (m k : Nat) :
    mkPyFloat false m 0 (-(k : Int)) = ⟨(m : Int), k⟩ := by
  rw [mkPyFloat_neg_exp]
  simp

/-- `mkPyFloat` with negative sign, no fraction, zero exponent. -/
theorem mkPyFloat_true_zero (m : Nat) :
    mkPyFloat true m 0 0 = ⟨-(m : Int), 0⟩ := by
  unfold mkPyFloat
  rw [if_pos (by norm_num : ((0 : Nat) : Int) ≤ 0)]
  simp

/-- `mkPyFloat` with positive sign, no fraction, zero exponent. -/
theorem mkPyFloat_false_zero (m : Nat) :
    mkPyFloat false m 0 0 = ⟨(m : Int), 0⟩ := by
  unfold mkPyFloat
  rw [if_pos (by norm_num : ((0 : Nat) : Int) ≤ 0)]
  simp

/-- Parsing back the decimal form of an integer. -/
theorem pyParseNumber_intStr (d : Int) :
    pyParseNumber (intStr d) = some (.fin ⟨d, 0⟩) := by
  by_cases hd : d < 0
  · rw [show intStr d = (if true then ['-'] else []) ++ natDigits d.natAbs from
      by rw [intStr, if_pos hd]; rfl]
    rw [pyParseNumber_sign_digits true d.natAbs, mkPyFloat_true_zero]
    have hnum : -((d.natAbs : Nat) : Int) = d := by omega
    rw [hnum]
  · rw [show intStr d = (if false then ['-'] else []) ++ natDigits d.natAbs from
      by rw [intStr, if_neg hd]; rfl]
    rw [pyParseNumber_sign_digits false d.natAbs, mkPyFloat_false_zero]
    have hnum : ((d.natAbs : Nat) : Int) = d := by omega
    rw [hnum]

/-- Parsing back the written form of any float value returns exactly that
value: the serialization `pyFloatStr` is parse-invertible. -/
theorem pyParseNumber_pyFloatStr (q : PyNum) :
    pyParseNumber (pyFloatStr q) = some q := by
  cases q with
  | fin x =>
    by_cases hd : x.num < 0
    · have hshape : pyFloatStr (.fin x) =
          (if true then ['-'] else []) ++ natDigits x.num.natAbs ++
          'e' :: '-' :: natDigits x.den10 := by
        show intStr x.num ++ _ = _
        rw [intStr, if_pos hd]
        rfl
      rw [hshape, pyParseNumber_sign_digits_exp true x.num.natAbs x.den10,
        mkPyFloat_true_exp x.num.natAbs x.den10]
      have hnum : -((x.num.natAbs : Nat) : Int) = x.num := by omega
      rw [hnum]
    · have hshape : pyFloatStr (.fin x) =
          (if false then ['-'] else []) ++ natDigits x.num.natAbs ++
          'e' :: '-' :: natDigits x.den10 := by
        show intStr x.num ++ _ = _
        rw [intStr, if_neg hd]
        rfl
      rw [hshape, pyParseNumber_sign_digits_exp false x.num.natAbs x.den10,
        mkPyFloat_false_exp x.num.natAbs x.den10]
      have hnum : ((x.num.natAbs : Nat) : Int) = x.num := by omega
      rw [hnum]
  | pinf => rfl
  | ninf => rfl
  | nan => rfl

/-- The full duration pipeline on a written integer duration. -/
theorem durOfNum_intStr (d : Int) :
    durOfNum (pyParseNumber (intStr d)) = .ok d := by
  rw [pyParseNumber_intStr]
  show Except.ok (pyTruncToInt ⟨d, 0⟩) = Except.ok d
  unfold pyTruncToInt
  norm_num

/-- Characters of a written integer are a sign or digits. -/
theorem intStr_chars {d : Int} {c : Char} (h : c ∈ intStr d) :
    c = '-' ∨ isDig c = true := by
  unfold intStr at h
  split at h
  · rcases List.mem_cons.mp h with rfl | h2
    · exact Or.inl rfl
    · exact Or.inr ((natDigits_spec _).2.1 c h2)
  · exact Or.inr ((natDigits_spec _).2.1 c h)

/-- Character-class facts about written integers: not whitespace, not a
newline, not a comma. -/
theorem intStr_chars_safe {d : Int} {c : Char} (h : c ∈ intStr d) :
    isWS c = false ∧ c ≠ '\n' ∧ c ≠ ',' := by
  rcases intStr_chars h with rfl | hd
  · exact ⟨rfl, by decide, by decide⟩
  · exact ⟨isDig_not_ws hd, (isDig_ne hd).2.2.2.2.2.2.2.2.1,
      (isDig_ne hd).2.2.1⟩

/-- Character-class facts about written floats: not whitespace, not a
newline, not an equals sign. -/
theorem pyFloatStr_chars_safe {q : PyNum} {c : Char} (h : c ∈ pyFloatStr q) :
    isWS c = false ∧ c ≠ '\n' ∧ c ≠ '=' := by
  cases q with
  | fin x =>
    rcases List.mem_append.mp h with h2 | h2
    · obtain ⟨h3, h4, -⟩ := intStr_chars_safe h2
      refine ⟨h3, h4, ?_⟩
      rcases intStr_chars h2 with rfl | hd
      · decide
      · exact (isDig_ne hd).2.2.2.2.2.2.2.2.2
    · rcases List.mem_cons.mp h2 with rfl | h3
      · exact ⟨rfl, by decide, by decide⟩
      rcases List.mem_cons.mp h3 with rfl | h4
      · exact ⟨rfl, by decide, by decide⟩
      · have hd := (natDigits_spec x.den10).2.1 c h4
        exact ⟨isDig_not_ws hd, (isDig_ne hd).2.2.2.2.2.2.2.2.1,
          (isDig_ne hd).2.2.2.2.2.2.2.2.2⟩
  | pinf =>
    have : c ∈ ['i', 'n', 'f'] := h
    fin_cases this <;> exact ⟨rfl, by decide, by decide⟩
  | ninf =>
    have : c ∈ ['-', 'i', 'n', 'f'] := h
    fin_cases this <;> exact ⟨rfl, by decide, by decide⟩
  | nan =>
    have : c ∈ ['n', 'a', 'n'] := h
    fin_cases this <;> exact ⟨rfl, by decide, by decide⟩

/-- Every list is a prefix of itself followed by anything. -/
theorem isPrefixOf_append_self : ∀ (a b : List Char),
    a.isPrefixOf (a ++ b) = true := by
  intro a
  induction a with
  | nil => intro b; simp [List.isPrefixOf]
  | cons x xs ih =>
    intro b
    rw [List.cons_append, List.isPrefixOf_cons₂]
    simp [ih b]

/-- `splitFirst` cuts at the first separator occurrence. -/
theorem splitFirst_append {c : Char} {a : List Char} (b : List Char)
    (h : c ∉ a) : splitFirst c (a ++ c :: b) = (a, some b) := by
  induction a with
  | nil =>
    show splitFirst c (c :: b) = ([], some b)
    simp [splitFirst]
  | cons x xs ih =>
    have hx : ¬ x = c := fun hh => h (by rw [hh]; simp)
    have hxs : c ∉ xs := fun hh => h (by simp [hh])
    show splitFirst c (x :: (xs ++ c :: b)) = (x :: xs, some b)
    simp only [splitFirst, if_neg hx, ih hxs]

/-- The before-part of a `splitFirst` is drawn from the input. -/
theorem splitFirst_fst_subset (c : Char) :
    ∀ l : List Char, (splitFirst c l).1 ⊆ l := by
  intro l
  induction l with
  | nil => simp [splitFirst]
  | cons x xs ih =>
    by_cases hx : x = c
    · simp [splitFirst, hx]
    · simp only [splitFirst, if_neg hx]
      intro y hy
      rcases List.mem_cons.mp hy with rfl | hy2
      · simp
      · simp [ih hy2]

/-- The after-part of a `splitFirst` is drawn from the input. -/
theorem splitFirst_snd_subset (c : Char) :
    ∀ (l r : List Char), (splitFirst c l).2 = some r → r ⊆ l := by
  intro l
  induction l with
  | nil => intro r hr; simp [splitFirst] at hr
  | cons x xs ih =>
    intro r hr
    by_cases hx : x = c
    · simp only [splitFirst, if_pos hx] at hr
      cases hr
      intro y hy
      simp [hy]
    · simp only [splitFirst, if_neg hx] at hr
      intro y hy
      simp [ih r hr hy]

/-- Parts produced by `splitOnChar` never contain the separator. -/
theorem splitOnChar_no_sep (c : Char) :
    ∀ (l : List Char) (part : List Char), part ∈ splitOnChar c l →
      c ∉ part := by
  intro l
  induction l with
  | nil =>
    intro part hp
    simp [splitOnChar] at hp
    simp [hp]
  | cons x xs ih =>
    intro part hp
    by_cases hx : x = c
    · simp only [splitOnChar, if_pos hx] at hp
      rcases List.mem_cons.mp hp with rfl | hp2
      · simp
      · exact ih part hp2
    · simp only [splitOnChar, if_neg hx] at hp
      cases hr : splitOnChar c xs with
      | nil => simp [hr] at hp; simp [hp]; exact fun hh => hx hh.symm
      | cons y ys =>
        rw [hr] at hp
        rcases List.mem_cons.mp hp with rfl | hp2
        · intro hmem
          rcases List.mem_cons.mp hmem with rfl | hmem2
          · exact hx rfl
          · exact ih y (by simp [hr]) hmem2
        · exact ih part (by simp [hr, hp2])

/-- Parts produced by `splitOnChar` are drawn from the input. -/
theorem splitOnChar_subset (c : Char) :
    ∀ (l : List Char) (part : List Char), part ∈ splitOnChar c l →
      part ⊆ l := by
  intro l
  induction l with
  | nil =>
    intro part hp
    simp [splitOnChar] at hp
    simp [hp]
  | cons x xs ih =>
    intro part hp
    by_cases hx : x = c
    · simp only [splitOnChar, if_pos hx] at hp
      rcases List.mem_cons.mp hp with rfl | hp2
      · simp
      · exact (ih part hp2).trans (List.subset_cons_self x xs)
    · simp only [splitOnChar, if_neg hx] at hp
      cases hr : splitOnChar c xs with
      | nil =>
        simp [hr] at hp
        simp [hp]
      | cons y ys =>
        rw [hr] at hp
        rcases List.mem_cons.mp hp with rfl | hp2
        · intro z hz
          rcases List.mem_cons.mp hz with rfl | hz2
          · simp
          · exact List.mem_cons_of_mem x (ih y (by simp [hr]) hz2)
        · exact (ih part (by simp [hr, hp2])).trans
            (List.subset_cons_self x xs)

/-- `splitOnChar` walks through a separator-free prefix up to an explicit
separator. -/
theorem splitOnChar_append {c : Char} {a : List Char} (b : List Char)
    (h : c ∉ a) : splitOnChar c (a ++ c :: b) = a :: splitOnChar c b := by
  induction a with
  | nil =>
    show splitOnChar c (c :: b) = [] :: splitOnChar c b
    simp [splitOnChar]
  | cons x xs ih =>
    have hx : ¬ x = c := fun hh => h (by rw [hh]; simp)
    have hxs : c ∉ xs := fun hh => h (by simp [hh])
    show splitOnChar c (x :: (xs ++ c :: b)) = (x :: xs) :: splitOnChar c b
    simp only [splitOnChar, if_neg hx, ih hxs]

/-- Splitting the joined lines at newlines recovers the lines (with one
trailing empty chunk from the final newline). -/
theorem splitOnChar_linesJoin :
    ∀ ls : List (List Char), (∀ l ∈ ls, '\n' ∉ l) →
      splitOnChar '\n' (linesJoin ls) = ls ++ [[]] := by
  intro ls
  induction ls with
  | nil => intro _; rfl
  | cons l t ih =>
    intro h
    have hl : '\n' ∉ l := h l (by simp)
    have hjoin : linesJoin (l :: t) = l ++ '\n' :: linesJoin t := by
      show (l ++ ['\n']) ++ linesJoin t = _
      simp
    rw [hjoin, splitOnChar_append _ hl, ih (fun x hx => h x (by simp [hx]))]
    rfl

/-- `linesJoin` distributes over list append. -/
theorem linesJoin_append (a b : List (List Char)) :
    linesJoin (a ++ b) = linesJoin a ++ linesJoin b := by
  unfold linesJoin
  rw [List.map_append, List.flatten_append]

/-- The written block of one item is its block lines joined. -/
theorem itemBlock_eq (it : PlaylistItem) :
    itemBlock it = linesJoin (blockLines it) := by
  unfold itemBlock blockLines linesJoin
  by_cases h1 : pyTruthy it.start_time <;> by_cases h2 : pyTruthy it.stop_time <;>
    simp [h1, h2]

/-- The file `write` emits is exactly its lines joined with newlines. -/
theorem writeContent_eq (items : List PlaylistItem) :
    writeContent items = linesJoin (writeLines items) := by
  have hblocks : ∀ its : List PlaylistItem,
      (its.map itemBlock).flatten = linesJoin (its.map blockLines).flatten := by
    intro its
    induction its with
    | nil => rfl
    | cons x t ih =>
      show itemBlock x ++ _ = linesJoin (blockLines x ++ _)
      rw [linesJoin_append, itemBlock_eq, ih]
  unfold writeContent writeLines
  rw [hblocks]
  show _ = linesJoin (("#EXTM3U".data) :: [] :: (items.map blockLines).flatten)
  rfl

/-- A blank line is skipped. -/
theorem parseLines_blank (rest : List (List Char)) (m : PMeta) :
    parseLines ([] :: rest) m = parseLines rest m := rfl

/-- The `#EXTM3U` header line is skipped. -/
theorem parseLines_header (rest : List (List Char)) (m : PMeta) :
    parseLines (("#EXTM3U".data) :: rest) m = parseLines rest m := rfl

/-- Re-parsing a written `#EXTINF` line records the duration and the
re-stripped title in the pending metadata. -/
theorem parseLines_extinf (d : Int) (title : List Char)
    (rest : List (List Char)) (m : PMeta) :
    parseLines
      (rstripNL (("#EXTINF:".data) ++ intStr d ++ ',' :: title) :: rest) m =
      parseLines rest
        { m with duration := some d, title := some (pyStrip title) } := by
  have hshape : ("#EXTINF:".data) ++ intStr d ++ ',' :: title =
      (("#EXTINF:".data) ++ intStr d ++ [',']) ++ title := by
    simp
  have hlastA : (("#EXTINF:".data) ++ intStr d ++ [',']).getLast? =
      some ',' := by
    rw [show ("#EXTINF:".data) ++ intStr d ++ [','] =
      ("#EXTINF:".data ++ intStr d) ++ [','] from by simp]
    rw [List.getLast?_append_of_ne_nil]
    · rfl
    · simp
  have hlstrip : pyStrip (rstripNL (("#EXTINF:".data) ++ intStr d ++
      ',' :: title)) =
      (("#EXTINF:".data) ++ intStr d ++ [',']) ++ dropEndWhile isWS title := by
    rw [pyStrip_rstripNL, hshape]
    refine pyStrip_head_append title (by simp) ?_ ?_
    · intro c hc
      rw [show ((("#EXTINF:".data) ++ intStr d ++ [','])).head? =
        some '#' from rfl] at hc
      cases hc
      rfl
    · intro c hc
      rw [hlastA] at hc
      cases hc
      rfl
  have hc1 : ¬((("#EXTINF:".data) ++ intStr d ++ [',']) ++
      dropEndWhile isWS title = [] ∨
      (("#EXTINF:".data) ++ intStr d ++ [',']) ++ dropEndWhile isWS title =
        "#EXTM3U".data) := by
    rintro (h | h)
    · simp at h
    · have hlen : 8 ≤ ((("#EXTINF:".data) ++ intStr d ++ [',']) ++
          dropEndWhile isWS title).length := by
        simp [List.length_append]
      rw [h] at hlen
      exact absurd hlen (by decide)
  have hassoc : (("#EXTINF:".data) ++ intStr d ++ [',']) ++
      dropEndWhile isWS title =
      ("#EXTINF:".data) ++ (intStr d ++ ',' :: dropEndWhile isWS title) := by
    simp
  have hpre : ("#EXTINF:".data).isPrefixOf
      ((("#EXTINF:".data) ++ intStr d ++ [',']) ++
        dropEndWhile isWS title) = true := by
    rw [hassoc]
    exact isPrefixOf_append_self _ _
  have hdrop : ((("#EXTINF:".data) ++ intStr d ++ [',']) ++
      dropEndWhile isWS title).drop 8 =
      intStr d ++ ',' :: dropEndWhile isWS title := by
    rw [hassoc, show (8 : Nat) = ("#EXTINF:".data).length from rfl,
      List.drop_left]
  have hsplit : splitFirst ',' (intStr d ++ ',' :: dropEndWhile isWS title) =
      (intStr d, some (dropEndWhile isWS title)) :=
    splitFirst_append _ (fun hc => (intStr_chars_safe hc).2.2 rfl)
  have htitle : pyStrip (dropEndWhile isWS title) = pyStrip title :=
    pyStrip_dropEndWhile (fun _ h => h) title
  rw [parseLines.eq_def]
  dsimp only
  rw [hlstrip]
  rw [if_neg hc1]
  rw [hpre]
  rw [if_pos (show true = true from rfl)]
  rw [hdrop]
  rw [hsplit]
  dsimp only
  rw [durOfNum_intStr]
  dsimp only [Option.getD]
  rw [htitle]

/-- Re-parsing a written `start-time` trim line records the trim value. -/
theorem parseLines_vlc_start (q : PyNum) (rest : List (List Char))
    (m : PMeta) :
    parseLines
      (rstripNL (("#EXTVLCOPT:start-time=".data) ++ pyFloatStr q) :: rest) m =
      parseLines rest { m with start_time := some q } := by
  have hnows : ∀ c ∈ ("#EXTVLCOPT:start-time=".data) ++ pyFloatStr q,
      isWS c = false := by
    intro c hc
    rcases List.mem_append.mp hc with h | h
    · fin_cases h <;> rfl
    · exact (pyFloatStr_chars_safe h).1
  have hlstrip : pyStrip (rstripNL (("#EXTVLCOPT:start-time=".data) ++
      pyFloatStr q)) = ("#EXTVLCOPT:start-time=".data) ++ pyFloatStr q := by
    rw [pyStrip_rstripNL]
    exact pyStrip_eq_self_of_no_ws hnows
  have hc1 : ¬(("#EXTVLCOPT:start-time=".data) ++ pyFloatStr q = [] ∨
      ("#EXTVLCOPT:start-time=".data) ++ pyFloatStr q = "#EXTM3U".data) := by
    rintro (h | h)
    · simp at h
    · have hlen : 22 ≤ (("#EXTVLCOPT:start-time=".data) ++
          pyFloatStr q).length := by
        simp [List.length_append]
      rw [h] at hlen
      exact absurd hlen (by decide)
  have hpre1 : ("#EXTINF:".data).isPrefixOf
      (("#EXTVLCOPT:start-time=".data) ++ pyFloatStr q) = false := rfl
  have hpre2 : ("#EXTVLCOPT:start-time=".data).isPrefixOf
      (("#EXTVLCOPT:start-time=".data) ++ pyFloatStr q) = true :=
    isPrefixOf_append_self _ _
  have hsplit : splitFirst '=' (("#EXTVLCOPT:start-time=".data) ++
      pyFloatStr q) = ("#EXTVLCOPT:start-time".data, some (pyFloatStr q)) := by
    rw [show ("#EXTVLCOPT:start-time=".data) ++ pyFloatStr q =
      ("#EXTVLCOPT:start-time".data) ++ '=' :: pyFloatStr q from rfl]
    exact splitFirst_append _ (by decide)
  rw [parseLines.eq_def]
  dsimp only
  rw [hlstrip]
  rw [if_neg hc1]
  rw [hpre1]
  rw [if_neg (show ¬false = true from by simp)]
  rw [hpre2]
  rw [if_pos (show true = true from rfl)]
  rw [hsplit]
  dsimp only [Option.getD]
  rw [pyParseNumber_pyFloatStr]

/-- Re-parsing a written `stop-time` trim line records the trim value. -/
theorem parseLines_vlc_stop (q : PyNum) (rest : List (List Char))
    (m : PMeta) :
    parseLines
      (rstripNL (("#EXTVLCOPT:stop-time=".data) ++ pyFloatStr q) :: rest) m =
      parseLines rest { m with stop_time := some q } := by
  have hnows : ∀ c ∈ ("#EXTVLCOPT:stop-time=".data) ++ pyFloatStr q,
      isWS c = false := by
    intro c hc
    rcases List.mem_append.mp hc with h | h
    · fin_cases h <;> rfl
    · exact (pyFloatStr_chars_safe h).1
  have hlstrip : pyStrip (rstripNL (("#EXTVLCOPT:stop-time=".data) ++
      pyFloatStr q)) = ("#EXTVLCOPT:stop-time=".data) ++ pyFloatStr q := by
    rw [pyStrip_rstripNL]
    exact pyStrip_eq_self_of_no_ws hnows
  have hc1 : ¬(("#EXTVLCOPT:stop-time=".data) ++ pyFloatStr q = [] ∨
      ("#EXTVLCOPT:stop-time=".data) ++ pyFloatStr q = "#EXTM3U".data) := by
    rintro (h | h)
    · simp at h
    · have hlen : 21 ≤ (("#EXTVLCOPT:stop-time=".data) ++
          pyFloatStr q).length := by
        simp [List.length_append]
      rw [h] at hlen
      exact absurd hlen (by decide)
  have hpre1 : ("#EXTINF:".data).isPrefixOf
      (("#EXTVLCOPT:stop-time=".data) ++ pyFloatStr q) = false := rfl
  have hpre2 : ("#EXTVLCOPT:start-time=".data).isPrefixOf
      (("#EXTVLCOPT:stop-time=".data) ++ pyFloatStr q) = false := rfl
  have hpre3 : ("#EXTVLCOPT:stop-time=".data).isPrefixOf
      (("#EXTVLCOPT:stop-time=".data) ++ pyFloatStr q) = true :=
    isPrefixOf_append_self _ _
  have hsplit : splitFirst '=' (("#EXTVLCOPT:stop-time=".data) ++
      pyFloatStr q) = ("#EXTVLCOPT:stop-time".data, some (pyFloatStr q)) := by
    rw [show ("#EXTVLCOPT:stop-time=".data) ++ pyFloatStr q =
      ("#EXTVLCOPT:stop-time".data) ++ '=' :: pyFloatStr q from rfl]
    exact splitFirst_append _ (by decide)
  rw [parseLines.eq_def]
  dsimp only
  rw [hlstrip]
  rw [if_neg hc1]
  rw [hpre1]
  rw [if_neg (show ¬false = true from by simp)]
  rw [hpre2]
  rw [if_neg (show ¬false = true from by simp)]
  rw [hpre3]
  rw [if_pos (show true = true from rfl)]
  rw [hsplit]
  dsimp only [Option.getD]
  rw [pyParseNumber_pyFloatStr]

/-- Re-parsing a track-path line consumes the pending metadata into an
item and resets the metadata. -/
theorem parseLines_track (p : List Char) (hp : GoodPath p)
    (rest : List (List Char)) (m : PMeta) :
    parseLines (rstripNL p :: rest) m =
      match parseLines rest {} with
      | .ok items => .ok (mkItem p m :: items)
      | .error e => .error e := by
  obtain ⟨hstrip, hne, hhash, -⟩ := hp
  have hrstrip : pyStrip (rstripNL p) = p := by
    rw [pyStrip_rstripNL, hstrip]
  have h1 : ¬(p = [] ∨ p = "#EXTM3U".data) := by
    rintro (h | h)
    · exact hne h
    · exact hhash (by rw [h]; rfl)
  have h2 : ("#EXTINF:".data).isPrefixOf p = false :=
    not_isPrefixOf_of_head_ne hhash
  have h3 : ("#EXTVLCOPT:start-time=".data).isPrefixOf p = false :=
    not_isPrefixOf_of_head_ne hhash
  have h4 : ("#EXTVLCOPT:stop-time=".data).isPrefixOf p = false :=
    not_isPrefixOf_of_head_ne hhash
  have h5 : ("#EXTOVERLAY:".data).isPrefixOf p = false :=
    not_isPrefixOf_of_head_ne hhash
  rw [parseLines.eq_def]
  dsimp only
  rw [hrstrip]
  rw [if_neg h1]
  rw [h2]
  rw [if_neg (show ¬false = true from by simp)]
  rw [h3]
  rw [if_neg (show ¬false = true from by simp)]
  rw [h4]
  rw [if_neg (show ¬false = true from by simp)]
  rw [h5]
  rw [if_neg (show ¬false = true from by simp)]
  rw [if_neg hhash]

/-- Re-parsing the full written block of one good item produces exactly
the `reparsedItem` and continues with empty pending metadata. -/
theorem parseLines_block (it : PlaylistItem) (hG : GoodItem it)
    (rest : List (List Char)) :
    parseLines ((blockLines it).map rstripNL ++ rest) ({} : PMeta) =
      match parseLines rest ({} : PMeta) with
      | .ok tl => .ok (reparsedItem it :: tl)
      | .error e => .error e := by
  obtain ⟨hpath, -⟩ := hG
  by_cases hs : pyTruthy it.start_time = true <;>
    by_cases ht : pyTruthy it.stop_time = true
  · have hexpand : (blockLines it).map rstripNL ++ rest =
        rstripNL (("#EXTINF:".data) ++ intStr it.duration ++
          ',' :: it.title) ::
        rstripNL (("#EXTVLCOPT:start-time=".data) ++
          pyFloatStr it.start_time) ::
        rstripNL (("#EXTVLCOPT:stop-time=".data) ++
          pyFloatStr it.stop_time) ::
        rstripNL it.path :: ([] : List Char) :: rest := by
      simp [blockLines, hs, ht, rstripNL, dropEndWhile]
    rw [hexpand, parseLines_extinf, parseLines_vlc_start, parseLines_vlc_stop,
      parseLines_track it.path hpath, parseLines_blank]
    have hitem : mkItem it.path
        { title := some (pyStrip it.title), duration := some it.duration,
          start_time := some it.start_time,
          stop_time := some it.stop_time } = reparsedItem it := by
      simp [mkItem, reparsedItem, hs, ht]
    rw [hitem]
  · have hexpand : (blockLines it).map rstripNL ++ rest =
        rstripNL (("#EXTINF:".data) ++ intStr it.duration ++
          ',' :: it.title) ::
        rstripNL (("#EXTVLCOPT:start-time=".data) ++
          pyFloatStr it.start_time) ::
        rstripNL it.path :: ([] : List Char) :: rest := by
      simp [blockLines, hs, ht, rstripNL, dropEndWhile]
    rw [hexpand, parseLines_extinf, parseLines_vlc_start,
      parseLines_track it.path hpath, parseLines_blank]
    have hitem : mkItem it.path
        { title := some (pyStrip it.title), duration := some it.duration,
          start_time := some it.start_time } = reparsedItem it := by
      simp [mkItem, reparsedItem, hs, ht]
    rw [hitem]
  · have hexpand : (blockLines it).map rstripNL ++ rest =
        rstripNL (("#EXTINF:".data) ++ intStr it.duration ++
          ',' :: it.title) ::
        rstripNL (("#EXTVLCOPT:stop-time=".data) ++
          pyFloatStr it.stop_time) ::
        rstripNL it.path :: ([] : List Char) :: rest := by
      simp [blockLines, hs, ht, rstripNL, dropEndWhile]
    rw [hexpand, parseLines_extinf, parseLines_vlc_stop,
      parseLines_track it.path hpath, parseLines_blank]
    have hitem : mkItem it.path
        { title := some (pyStrip it.title), duration := some it.duration,
          stop_time := some it.stop_time } = reparsedItem it := by
      simp [mkItem, reparsedItem, hs, ht]
    rw [hitem]
  · have hexpand : (blockLines it).map rstripNL ++ rest =
        rstripNL (("#EXTINF:".data) ++ intStr it.duration ++
          ',' :: it.title) ::
        rstripNL it.path :: ([] : List Char) :: rest := by
      simp [blockLines, hs, ht, rstripNL, dropEndWhile]
    rw [hexpand, parseLines_extinf, parseLines_track it.path hpath,
      parseLines_blank]
    have hitem : mkItem it.path
        { title := some (pyStrip it.title),
          duration := some it.duration } = reparsedItem it := by
      simp [mkItem, reparsedItem, hs, ht]
    rw [hitem]

/-- Membership in a conditional singleton forces equality. -/
theorem mem_if_singleton {α : Type} {c : Prop} [Decidable c] {a x : α}
    (h : x ∈ (if c then [a] else [])) : x = a := by
  by_cases hc : c
  · rw [if_pos hc] at h
    simpa using h
  · rw [if_neg hc] at h
    simp at h

/-- The path's final name component draws its characters from the path. -/
theorem pyName_subset (p : List Char) : pyName p ⊆ p := by
  unfold pyName
  cases hl : ((splitOnChar '/' p).filter
      (fun s => !s.isEmpty && s != ['.'])).getLast? with
  | none =>
    intro c hc
    simp at hc
  | some n =>
    intro c hc
    exact splitOnChar_subset '/' p n
      (List.mem_of_mem_filter (List.mem_of_getLast?_eq_some hl)) hc

/-- The path's stem draws its characters from the path. -/
theorem pyStem_subset (p : List Char) : pyStem p ⊆ p := by
  unfold pyStem
  dsimp only
  rcases hld : lastDotIdx (pyName p) with - | i
  · exact pyName_subset p
  · dsimp only
    split
    · exact fun c hc => pyName_subset p (List.mem_of_mem_take hc)
    · exact pyName_subset p

/-- Re-parsing the written trim value gives a value numerically equal to
the original: written only when truthy, and a non-truthy value is the
float zero. -/
theorem pyNumEq_reparse (x : PyNum) :
    pyNumEq (if pyTruthy x then x else pyZero) x := by
  by_cases h : pyTruthy x = true
  · rw [if_pos h]
    cases x
    · show (PyFloat.val _) = PyFloat.val _
      rfl
    · trivial
    · trivial
    · trivial
  · rw [if_neg h]
    cases x with
    | fin a =>
      simp only [pyTruthy, bne_iff_ne, ne_eq, Decidable.not_not] at h
      show (PyFloat.val ⟨0, 0⟩) = PyFloat.val a
      simp [PyFloat.val, h]
    | pinf => simp [pyTruthy] at h
    | ninf => simp [pyTruthy] at h
    | nan => simp [pyTruthy] at h

/-- No line `M3UParser.write` emits contains a newline, given items of
the parser's shape. -/
theorem writeLines_no_nl {items : List PlaylistItem}
    (h : ∀ it ∈ items, GoodItem it) :
    ∀ l ∈ writeLines items, '\n' ∉ l := by
  intro l hl hmem
  unfold writeLines at hl
  rcases List.mem_cons.mp hl with rfl | hl
  · exact absurd hmem (by decide)
  rcases List.mem_cons.mp hl with rfl | hl
  · exact absurd hmem (by decide)
  rw [List.mem_flatten] at hl
  obtain ⟨bl, hbl, hlbl⟩ := hl
  rw [List.mem_map] at hbl
  obtain ⟨it, hit, rfl⟩ := hbl
  obtain ⟨⟨-, -, -, hpnl⟩, htnl⟩ := h it hit
  unfold blockLines at hlbl
  rcases List.mem_cons.mp hlbl with rfl | hlbl
  · rcases List.mem_append.mp hmem with hc | hc
    · rcases List.mem_append.mp hc with hc2 | hc2
      · exact absurd hc2 (by decide)
      · exact (intStr_chars_safe hc2).2.1 rfl
    · rcases List.mem_cons.mp hc with hc2 | hc2
      · exact absurd hc2 (by decide)
      · exact htnl hc2
  rcases List.mem_append.mp hlbl with hc | hc
  · rcases List.mem_append.mp hc with hc2 | hc2
    · rw [mem_if_singleton hc2] at hmem
      rcases List.mem_append.mp hmem with h3 | h3
      · exact absurd h3 (by decide)
      · exact (pyFloatStr_chars_safe h3).2.1 rfl
    · rw [mem_if_singleton hc2] at hmem
      rcases List.mem_append.mp hmem with h3 | h3
      · exact absurd h3 (by decide)
      · exact (pyFloatStr_chars_safe h3).2.1 rfl
  rcases List.mem_cons.mp hc with rfl | hc2
  · exact hpnl hmem
  rcases List.mem_cons.mp hc2 with rfl | hc3
  · exact absurd hmem (by decide)
  · exact absurd hc3 (by simp)

/-- Re-parsing the concatenated written blocks yields the re-parsed
items, continuing with any remainder that parses to nothing. -/
theorem parseLines_blocks (rest : List (List Char))
    (hrest : parseLines rest ({} : PMeta) = .ok []) :
    ∀ items : List PlaylistItem, (∀ it ∈ items, GoodItem it) →
      parseLines (((items.map blockLines).map (List.map rstripNL)).flatten
          ++ rest) ({} : PMeta) = .ok (items.map reparsedItem) := by
  intro items
  induction items with
  | nil =>
    intro _
    simpa using hrest
  | cons x t ih =>
    intro hgood
    rw [List.map_cons, List.map_cons, List.flatten_cons, List.append_assoc,
      parseLines_block x (hgood x (List.mem_cons_self x t)),
      ih (fun it hit => hgood it (List.mem_cons_of_mem x hit))]
    rfl

/-- Every item the parse loop produces has the parser's shape: a
stripped, non-empty, non-comment, newline-free path and a newline-free
title — provided the input lines and any pending title are newline-free. -/
theorem parse_good (ls : List (List Char)) :
    ∀ m : PMeta, (∀ l ∈ ls, '\n' ∉ l) →
      (∀ t, m.title = some t → '\n' ∉ t) →
      ∀ items, parseLines ls m = .ok items →
      ∀ it ∈ items, GoodItem it := by
  induction ls with
  | nil =>
    intro m _ _ items hparse it hit
    have h0 := Except.ok.inj hparse
    rw [← h0] at hit
    simp at hit
  | cons line rest ih =>
    intro m hls hm items hparse it hit
    have hlsrest : ∀ l ∈ rest, '\n' ∉ l :=
      fun l hl => hls l (List.mem_cons_of_mem _ hl)
    have hline : '\n' ∉ line := hls line (List.mem_cons_self _ _)
    have hlstrip : '\n' ∉ pyStrip line :=
      fun hc => hline (mem_of_mem_pyStrip hc)
    rw [parseLines.eq_def] at hparse
    dsimp only at hparse
    by_cases h1 : pyStrip line = [] ∨ pyStrip line = "#EXTM3U".data
    · rw [if_pos h1] at hparse
      exact ih m hlsrest hm items hparse it hit
    rw [if_neg h1] at hparse
    by_cases h2 : ("#EXTINF:".data).isPrefixOf (pyStrip line) = true
    · rw [if_pos h2] at hparse
      cases hd : durOfNum (pyParseNumber
          (splitFirst ',' ((pyStrip line).drop 8)).1) with
      | error e =>
        rw [hd] at hparse
        dsimp only at hparse
        exact absurd hparse (by simp)
      | ok d =>
        rw [hd] at hparse
        dsimp only at hparse
        refine ih _ hlsrest ?_ items hparse it hit
        intro t ht
        have ht2 := Option.some.inj ht
        rw [← ht2]
        intro hc
        have hc2 := mem_of_mem_pyStrip hc
        cases hv : (splitFirst ',' ((pyStrip line).drop 8)).2 with
        | none =>
          rw [hv] at hc2
          simp at hc2
        | some r =>
          rw [hv] at hc2
          exact hlstrip (List.mem_of_mem_drop
            (splitFirst_snd_subset ',' _ r hv hc2))
    rw [if_neg h2] at hparse
    by_cases h3 :
        ("#EXTVLCOPT:start-time=".data).isPrefixOf (pyStrip line) = true
    · rw [if_pos h3] at hparse
      cases hq : pyParseNumber ((splitFirst '=' (pyStrip line)).2.getD []) with
      | none =>
        rw [hq] at hparse
        dsimp only at hparse
        refine ih _ hlsrest ?_ items hparse it hit
        intro t ht
        exact hm t ht
      | some q =>
        rw [hq] at hparse
        dsimp only at hparse
        refine ih _ hlsrest ?_ items hparse it hit
        intro t ht
        exact hm t ht
    rw [if_neg h3] at hparse
    by_cases h4 :
        ("#EXTVLCOPT:stop-time=".data).isPrefixOf (pyStrip line) = true
    · rw [if_pos h4] at hparse
      cases hq : pyParseNumber ((splitFirst '=' (pyStrip line)).2.getD []) with
      | none =>
        rw [hq] at hparse
        dsimp only at hparse
        refine ih _ hlsrest ?_ items hparse it hit
        intro t ht
        exact hm t ht
      | some q =>
        rw [hq] at hparse
        dsimp only at hparse
        refine ih _ hlsrest ?_ items hparse it hit
        intro t ht
        exact hm t ht
    rw [if_neg h4] at hparse
    by_cases h5 : ("#EXTOVERLAY:".data).isPrefixOf (pyStrip line) = true
    · rw [if_pos h5] at hparse
      cases hv : (splitFirst '=' ((pyStrip line).drop 12)).2 with
      | none =>
        rw [hv] at hparse
        dsimp only at hparse
        refine ih _ hlsrest ?_ items hparse it hit
        intro t ht
        exact hm t ht
      | some v0 =>
        rw [hv] at hparse
        dsimp only at hparse
        repeat' split at hparse
        all_goals refine ih _ hlsrest ?_ items hparse it hit
        all_goals intro t ht
        all_goals exact hm t ht
    rw [if_neg h5] at hparse
    by_cases h6 : (pyStrip line).head? = some '#'
    · rw [if_pos h6] at hparse
      exact ih _ hlsrest hm items hparse it hit
    rw [if_neg h6] at hparse
    cases hrec : parseLines rest {} with
    | error e =>
      rw [hrec] at hparse
      dsimp only at hparse
      exact absurd hparse (by simp)
    | ok tl =>
      rw [hrec] at hparse
      dsimp only at hparse
      have hitems := Except.ok.inj hparse
      rw [← hitems] at hit
      rcases List.mem_cons.mp hit with rfl | hit2
      · refine ⟨⟨pyStrip_idem line, ?_, h6, hlstrip⟩, ?_⟩
        · intro h0
          exact h1 (Or.inl h0)
        · show '\n' ∉ (mkItem (pyStrip line) m).title
          cases hmt : m.title with
          | some t =>
            show '\n' ∉ (m.title.getD _)
            rw [hmt]
            exact hm t hmt
          | none =>
            show '\n' ∉ (m.title.getD
              (if ("http".data).isPrefixOf (pyStrip line) then pyStrip line
               else pyStem (pyStrip line)))
            rw [hmt]
            dsimp only [Option.getD]
            by_cases hhttp : ("http".data).isPrefixOf (pyStrip line) = true
            · rw [if_pos hhttp]
              exact hlstrip
            · rw [if_neg hhttp]
              intro hc
              exact hlstrip (pyStem_subset (pyStrip line) hc)
      · exact ih {} hlsrest (fun t ht => Option.noConfusion ht) tl hrec it hit2

/-- C4 (amended): for every playlist obtained by parsing a playlist
file, writing it out and re-parsing yields a playlist with the same item
count whose items keep the same path and duration, keep the title up to
`strip()` (the parser re-strips the written title, so a parsed title with
leading or trailing whitespace is not reproduced exactly), and keep
start/stop trim points up to numeric value (a falsy trim value is not
written and re-parses as zero, which is numerically equal). -/
theorem m3u_roundtrip (content : List Char) (items : List PlaylistItem)
    (hp : parseContent content = .ok items) :
    parseContent (writeContent items) = .ok (items.map reparsedItem) ∧
    (items.map reparsedItem).length = items.length ∧
    ∀ it ∈ items,
      (reparsedItem it).path = it.path ∧
      (reparsedItem it).duration = it.duration ∧
      (reparsedItem it).title = pyStrip it.title ∧
      pyNumEq (reparsedItem it).start_time it.start_time ∧
      pyNumEq (reparsedItem it).stop_time it.stop_time := by
  have hls : ∀ l ∈ contentLines content, '\n' ∉ l := by
    intro l hl hmem
    unfold contentLines at hl
    rw [List.mem_map] at hl
    obtain ⟨part, hpart, rfl⟩ := hl
    exact splitOnChar_no_sep '\n' content part hpart
      (mem_of_mem_dropEndWhile hmem)
  have hgood : ∀ it ∈ items, GoodItem it :=
    parse_good (contentLines content) {} hls
      (fun t ht => Option.noConfusion ht) items hp
  refine ⟨?_, List.length_map _ _, ?_⟩
  · show parseLines (contentLines (writeContent items)) {} = _
    unfold contentLines
    rw [writeContent_eq,
      splitOnChar_linesJoin (writeLines items) (writeLines_no_nl hgood)]
    unfold writeLines
    rw [List.map_append, List.map_cons, List.map_cons, List.map_flatten]
    rw [show rstripNL ("#EXTM3U".data) = "#EXTM3U".data from rfl,
      show rstripNL ([] : List Char) = [] from rfl]
    rw [List.cons_append, List.cons_append]
    rw [parseLines_header, parseLines_blank]
    exact parseLines_blocks (List.map rstripNL [([] : List Char)]) rfl
      items hgood
  · intro it hit
    exact ⟨rfl, rfl, rfl, pyNumEq_reparse it.start_time,
      pyNumEq_reparse it.stop_time⟩

/-- Witness for C4's amended theorem: a concrete two-item playlist file
with a padded title, a trim point, and a default-titled local track. -/
theorem m3u_roundtrip_witness :
    parseContent w4Content = .ok w4Items ∧
    (parseContent (writeContent w4Items) = .ok (w4Items.map reparsedItem) ∧
     (w4Items.map reparsedItem).length = w4Items.length ∧
     ∀ it ∈ w4Items,
       (reparsedItem it).path = it.path ∧
       (reparsedItem it).duration = it.duration ∧
       (reparsedItem it).title = pyStrip it.title ∧
       pyNumEq (reparsedItem it).start_time it.start_time ∧
       pyNumEq (reparsedItem it).stop_time it.stop_time) :=
  ⟨by rfl, m3u_roundtrip w4Content w4Items (by rfl)⟩

end ObsRelay
